import Mathlib

/-!
# Verification of the Law_buddy retrieval-and-routing core

Shallow embedding of the algorithmic core of the `Law_buddy` repository:

* `app/privacy/privacy_layer.py` — sensitivity classifier and redaction
  (`PrivacyLayer.classify_query_sensitivity`, `PrivacyLayer.anonymize_text`);
* `app/slm/calculation_engine.py` — calculation-query detector and tax
  calculation (`CalculationEngine.detect_calculation_query`,
  `extract_financial_data`, `calculate_tax_liability`);
* `app/slm/model_router.py` — complexity/relevance scoring, routing and the
  fallback chain (`ModelRouter`);
* `app/models/model_manager.py` — privacy-aware backend selection
  (`PrivacyAwareModelManager.route_query`);
* `app/retrieval/hybrid_retriever.py` — fusion reranking
  (`HybridRetriever._combine_and_rerank`);
* `app/services/legal_service.py` / `app/cache/redis_manager.py` — the query
  cache key (MD5 of the raw query text).

Text is modelled as a list of Unicode code points (`List Nat`).  The regular
expressions appearing in the source are embedded by specialised matchers whose
semantics follow Python `re` (including word boundaries `\b` and the greedy /
backtracking behaviour of the concrete patterns involved); the embedding
covers the ASCII fragment of Python's `str.lower`, `\w`, and `\d` classes,
which is the fragment all the patterns in the source are written in.
Python floats on the arithmetic paths are modelled by exact rationals.
-/

/-! ## Text infrastructure -/

/-- A text is a list of Unicode code points. -/
abbrev Text := List Nat

/-- Converts a Lean string literal to the code-point representation. -/
def txt (s : String) : Text := s.data.map Char.toNat

/-- ASCII decimal digit, Python regex class `\d` (ASCII fragment). -/
def isDigitCh (n : Nat) : Bool := decide (48 ≤ n ∧ n ≤ 57)

/-- ASCII uppercase letter, regex class `[A-Z]`. -/
def isUpperCh (n : Nat) : Bool := decide (65 ≤ n ∧ n ≤ 90)

/-- ASCII lowercase letter, regex class `[a-z]`. -/
def isLowerCh (n : Nat) : Bool := decide (97 ≤ n ∧ n ≤ 122)

/-- Python regex word character `\w` (ASCII fragment): `[A-Za-z0-9_]`. -/
def isWordCh (n : Nat) : Bool := isDigitCh n || isUpperCh n || isLowerCh n || n == 95

/-- Word-character test on an optional character; `none` stands for the
position before the start or after the end of the string and is non-word. -/
def isWordOpt : Option Nat → Bool
  | none => false
  | some c => isWordCh c

/-- ASCII whitespace, as removed by Python `str.strip` and split on by
`str.split()` (space, tab, newline, carriage return, vertical tab, form feed). -/
def isSpaceCh (n : Nat) : Bool :=
  n == 32 || n == 9 || n == 10 || n == 13 || n == 11 || n == 12

/-- ASCII fragment of Python `str.lower`: maps `A`–`Z` to `a`–`z`. -/
def lowerCh (n : Nat) : Nat := if isUpperCh n then n + 32 else n

/-- `str.lower` on a text (ASCII fragment). -/
def lowerText (t : Text) : Text := t.map lowerCh

/-- Python substring containment `w in s`. -/
def containsSub (w : Text) : Text → Bool
  | [] => w.isEmpty
  | c :: rest => w.isPrefixOf (c :: rest) || containsSub w rest

/-- `re` word boundary `\b` between an optional left character and an optional
right character: holds when exactly one side is a word character. -/
def isBoundary (l r : Option Nat) : Bool := isWordOpt l != isWordOpt r

/-- A keyword `w` (starting and ending with word characters) matches at the
head of `s` with `\b` on both sides; `prev` is the character before `s`. -/
def boundedAtHead (w : Text) (prev : Option Nat) (s : Text) : Bool :=
  w.isPrefixOf s && !isWordOpt prev && !isWordOpt (s.get? w.length)

/-- Scans `s` for a `\b w \b` occurrence (`re.search` of a word-bounded
keyword); `prev` is the character preceding `s`. -/
def wordOccursFrom (w : Text) : Option Nat → Text → Bool
  | _, [] => false
  | prev, c :: rest => boundedAtHead w prev (c :: rest) || wordOccursFrom w (some c) rest

/-- `re.search(r"\b<w>\b", s)` as a Boolean, for keywords made of word
characters (all keyword alternatives in the source are). -/
def wordOccurs (w s : Text) : Bool := wordOccursFrom w none s

/-- Length of the leading run of characters satisfying `cls`. -/
def runLen (cls : Nat → Bool) : Text → Nat
  | [] => 0
  | c :: rest => if cls c then runLen cls rest + 1 else 0

/-- Leading digit-run length (`\d+` greedily matched at the head). -/
def countDigits : Text → Nat := runLen isDigitCh

/-- Match of `\b\d{lo,hi}\b` at the head of `s` (with `prev` the preceding
character), returning the matched length.  Per `re` greedy semantics a digit
run of length `L` matches iff `lo ≤ L ≤ hi` and the run is delimited by
word boundaries: shorter backtracked attempts always face a following digit. -/
def digitRunAtHead (lo hi : Nat) (prev : Option Nat) (s : Text) : Option Nat :=
  match s with
  | [] => none
  | c :: _ =>
    if isDigitCh c && !isWordOpt prev then
      let L := countDigits s
      if decide (lo ≤ L) && decide (L ≤ hi) && !isWordOpt (s.get? L) then some L else none
    else none

/-- `re.search(r"\b\d{lo,hi}\b", s)` as a Boolean. -/
def digitRunOccursFrom (lo hi : Nat) : Option Nat → Text → Bool
  | _, [] => false
  | prev, c :: rest =>
    (digitRunAtHead lo hi prev (c :: rest)).isSome || digitRunOccursFrom lo hi (some c) rest

/-- Top-level digit-run search starting at the beginning of the text. -/
def digitRunOccurs (lo hi : Nat) (s : Text) : Bool := digitRunOccursFrom lo hi none s

/-- Match of the PAN pattern `\b[A-Z]{5}\d{4}[A-Z]\b` at the head of `s`. -/
def panAtHead (prev : Option Nat) (s : Text) : Option Nat :=
  if !isWordOpt prev
      && (s.take 5).length == 5 && (s.take 5).all isUpperCh
      && ((s.drop 5).take 4).length == 4 && ((s.drop 5).take 4).all isDigitCh
      && (s.get? 9).elim false isUpperCh
      && !isWordOpt (s.get? 10)
  then some 10 else none

/-- `re.search(r"\b[A-Z]{5}\d{4}[A-Z]\b", s)` as a Boolean. -/
def panOccursFrom : Option Nat → Text → Bool
  | _, [] => false
  | prev, c :: rest => (panAtHead prev (c :: rest)).isSome || panOccursFrom (some c) rest

/-- Top-level PAN-pattern search. -/
def panOccurs (s : Text) : Bool := panOccursFrom none s

/-! ## Privacy layer: sensitivity classification
(`app/privacy/privacy_layer.py`, `PrivacyLayer`) -/

/-- Sensitivity levels of `privacy_layer.QuerySensitivity`. -/
inductive QuerySensitivity
  | public
  | sensitive
  | highly_sensitive
deriving DecidableEq, Repr

/-- `sensitive_patterns["personal_identification"]` keyword alternation. -/
def kwPersonalId : List Text :=
  [txt "aadhar", txt "aadhaar", txt "pan", txt "social security", txt "ssn"]

/-- `sensitive_patterns["financial_information"]` keyword alternation. -/
def kwFinancialInfo : List Text :=
  [txt "account", txt "bank", txt "credit card", txt "debit card"]

/-- `sensitive_patterns["financial_information"]` bank-code alternation. -/
def kwBankCodes : List Text := [txt "ifsc", txt "swift", txt "bic"]

/-- `sensitive_patterns["business_confidential"]` first alternation. -/
def kwBusinessConf : List Text :=
  [txt "profit", txt "loss", txt "revenue", txt "turnover", txt "salary"]

/-- `sensitive_patterns["business_confidential"]` second alternation. -/
def kwConfMarkers : List Text :=
  [txt "confidential", txt "proprietary", txt "trade secret"]

/-- `highly_sensitive_patterns["legal_case_details"]` alternations. -/
def kwLegalCase : List Text :=
  [txt "case no", txt "court", txt "judge", txt "plaintiff", txt "defendant",
   txt "fir", txt "complaint", txt "petition"]

/-- `highly_sensitive_patterns["criminal_information"]` alternation. -/
def kwCriminalInfo : List Text :=
  [txt "criminal", txt "offense", txt "crime", txt "felony", txt "misdemeanor"]

/-- Any keyword of the list occurs word-bounded in `s`. -/
def matchesAnyWord (ws : List Text) (s : Text) : Bool := ws.any fun w => wordOccurs w s

/-- Some highly sensitive pattern matches the (already lower-cased) query. -/
def highlyMatch (ql : Text) : Bool :=
  matchesAnyWord kwLegalCase ql || matchesAnyWord kwCriminalInfo ql

/-- Some sensitive pattern matches the (already lower-cased) query:
keyword alternations, a 12-digit run (`\b\d{12}\b`), the PAN pattern
(`\b[A-Z]{5}\d{4}[A-Z]\b`), and a 10–16-digit run (`\b\d{10,16}\b`). -/
def sensitiveMatch (ql : Text) : Bool :=
  matchesAnyWord kwPersonalId ql || digitRunOccurs 12 12 ql || panOccurs ql
    || matchesAnyWord kwFinancialInfo ql || digitRunOccurs 10 16 ql
    || matchesAnyWord kwBankCodes ql
    || matchesAnyWord kwBusinessConf ql || matchesAnyWord kwConfMarkers ql

/-- `PrivacyLayer.classify_query_sensitivity`: lower-cases the query, tests
the highly sensitive pattern groups first (returning immediately on a
match), then the sensitive groups, defaulting to public. -/
def classifyQuerySensitivity (q : Text) : QuerySensitivity :=
  let ql := lowerText q
  if highlyMatch ql then .highly_sensitive
  else if sensitiveMatch ql then .sensitive
  else .public

/-! ## Calculation engine
(`app/slm/calculation_engine.py`, `CalculationEngine`) -/

/-- Calculation types of `CalculationType`. -/
inductive CalculationType
  | tax
  | gst
  | salary
  | loan
  | profit
  | general_financial
deriving DecidableEq, Repr

/-- The `calc_keywords` list of `detect_calculation_query`. -/
def calcKeywords : List Text :=
  [txt "calculate", txt "computation", txt "how much", txt "what is the tax",
   txt "turnover", txt "revenue", txt "expenditure", txt "expenses", txt "profit",
   txt "salary", txt "cost", txt "amount", txt "pay", txt "tax liability",
   txt "net profit", txt "gross profit", txt "breakdown"]

/-- `any(keyword in query_lower for keyword in calc_keywords)`. -/
def hasCalcKeyword (q : Text) : Bool :=
  calcKeywords.any fun w => containsSub w (lowerText q)

/-- `bool(re.search(r'\d+', query))`: the raw query contains a digit. -/
def hasNumbers (q : Text) : Bool := q.any isDigitCh

/-- `CalculationEngine.detect_calculation_query`: returns `(False, None)` when
neither a financial keyword nor a number is present, otherwise `True` with a
calculation type chosen by substring tests on the lower-cased query. -/
def detectCalculationQuery (q : Text) : Bool × Option CalculationType :=
  let ql := lowerText q
  if !(hasCalcKeyword q || hasNumbers q) then (false, none)
  else if containsSub (txt "tax") ql || containsSub (txt "income tax") ql then
    (true, some .tax)
  else if containsSub (txt "gst") ql then (true, some .gst)
  else if containsSub (txt "salary") ql || containsSub (txt "employee") ql then
    (true, some .salary)
  else if containsSub (txt "loan") ql || containsSub (txt "interest") ql then
    (true, some .loan)
  else if containsSub (txt "profit") ql then (true, some .profit)
  else (true, some .general_financial)

/-- The financial-data dictionary built by
`CalculationEngine.extract_financial_data`; each field is present when the
corresponding regex group matched.  Monetary amounts are rationals (already
converted to rupees by the extraction code). -/
structure FinancialData where
  turnover : Option ℚ
  employee_count : Option Nat
  salary_expense : Option ℚ
  resource_expense : Option ℚ
  misc_expense : Option ℚ
deriving DecidableEq, Repr

/-- The final step of `extract_financial_data` (lines 166–174): when a
turnover was extracted and the known expenses (`salary_expense` plus
`resource_expense`, each defaulted to 0) are positive, the miscellaneous
expense is set to the turnover minus the known expenses. -/
def finalizeMiscExpense (d : FinancialData) : FinancialData :=
  match d.turnover with
  | none => d
  | some t =>
    let totalKnown := d.salary_expense.getD 0 + d.resource_expense.getD 0
    if 0 < totalKnown then { d with misc_expense := some (t - totalKnown) } else d

/-- The `result["breakdown"]` dictionary of `calculate_tax_liability`. -/
structure TaxBreakdown where
  turnover : ℚ
  salary_expense : ℚ
  resource_expense : ℚ
  misc_expense : ℚ
  total_expenses : ℚ
  profit_before_tax : ℚ
  income_tax_rate : ℚ
  income_tax : ℚ
  gst_payable : ℚ
  professional_tax : ℚ
  tds_on_salary : ℚ
  total_direct_tax : ℚ
  profit_after_tax : ℚ
deriving DecidableEq, Repr

/-- `CalculationEngine.calculate_tax_liability`: expenses are summed, profit
before tax is turnover minus expenses, the income-tax rate is 25% below a
₹400 crore turnover and 30% above, GST is 18% of turnover, professional tax
is ₹2500 per employee, TDS is 10% of the salary expense, and the total direct
tax is income tax plus professional tax. -/
def calculateTaxLiability (d : FinancialData) : TaxBreakdown :=
  let turnover := d.turnover.getD 0
  let salary := d.salary_expense.getD 0
  let resource := d.resource_expense.getD 0
  let misc := d.misc_expense.getD 0
  let totalExpenses := salary + resource + misc
  let profitBeforeTax := turnover - totalExpenses
  let rate : ℚ := if turnover / 10000000 < 400 then 25 / 100 else 30 / 100
  let incomeTax := profitBeforeTax * rate
  let gst := turnover * (18 / 100)
  let profTax := (d.employee_count.getD 0 : ℚ) * 2500
  let tds := salary * (10 / 100)
  { turnover := turnover
    salary_expense := salary
    resource_expense := resource
    misc_expense := misc
    total_expenses := totalExpenses
    profit_before_tax := profitBeforeTax
    income_tax_rate := rate
    income_tax := incomeTax
    gst_payable := gst
    professional_tax := profTax
    tds_on_salary := tds
    total_direct_tax := incomeTax + profTax
    profit_after_tax := profitBeforeTax - incomeTax }

/-! ## Model router
(`app/slm/model_router.py`, `ModelRouter`) -/

/-- Model types of `model_router.ModelType`: local small model, Gemini large
model, calculation engine. -/
inductive RouterModelType
  | slm
  | llm
  | calc
deriving DecidableEq, Repr

/-- The `complexity_keywords` list of `ModelRouter.__init__`. -/
def complexityKeywords : List Text :=
  [txt "analyze", txt "evaluate", txt "compare", txt "detailed", txt "comprehensive",
   txt "complex", txt "intricate", txt "nuanced", txt "interpret", txt "assess"]

/-- The `legal_domain_keywords` list of `ModelRouter.__init__`. -/
def legalDomainKeywords : List Text :=
  [txt "contract", txt "litigation", txt "compliance", txt "regulation",
   txt "jurisdiction", txt "precedent", txt "statute", txt "tort",
   txt "liability", txt "damages"]

/-- The `msme_keywords` list of `ModelRouter.__init__`. -/
def msmeKeywords : List Text :=
  [txt "msme", txt "udyam", txt "udyog aadhar", txt "micro enterprise",
   txt "small enterprise", txt "medium enterprise", txt "gst", txt "mudra",
   txt "startup india", txt "sidbi", txt "labour law", txt "employee contract",
   txt "vendor agreement", txt "ip protection", txt "registration", txt "license",
   txt "tax", txt "loan", txt "credit", txt "insurance", txt "export",
   txt "import", txt "manufacturing", txt "retail", txt "services",
   txt "technology", txt "healthcare", txt "proprietary", txt "partnership",
   txt "llp", txt "private limited"]

/-- Python `min` on two rationals (kernel-computable). -/
def qmin (a b : ℚ) : ℚ := if a ≤ b then a else b

/-- Number of keywords of `ws` contained as substrings in the lower-cased
query (`sum(1 for keyword in ws if keyword in query_lower)`). -/
def keywordMatches (ws : List Text) (ql : Text) : Nat :=
  (ws.filter fun w => containsSub w ql).length

/-- `ModelRouter._calculate_complexity`: weighted sum of the normalized query
length (weight 0.3, threshold 100 characters), complexity-keyword matches
normalized to 3 (weight 0.3), legal-domain-keyword matches normalized to 3
(weight 0.2), and — when context is present — the normalized context length
(weight 0.2, threshold 200), capped at 1. -/
def calculateComplexity (q ctx : Text) : ℚ :=
  let ql := lowerText q
  let lengthFactor := qmin ((q.length : ℚ) / 100) 1
  let complexityFactor := qmin ((keywordMatches complexityKeywords ql : ℚ) / 3) 1
  let legalFactor := qmin ((keywordMatches legalDomainKeywords ql : ℚ) / 3) 1
  let contextPart : ℚ :=
    if ctx.isEmpty then 0 else qmin ((ctx.length : ℚ) / 200) 1 * (2 / 10)
  qmin (lengthFactor * (3 / 10) + complexityFactor * (3 / 10)
        + legalFactor * (2 / 10) + contextPart) 1

/-- The business context returned by `context_collector.get_context_for_user`
(an external store); empty strings model missing dictionary entries. -/
structure BusinessContext where
  industry : Text
  business_size : Text
  legal_structure : Text
deriving Repr

/-- `ModelRouter._calculate_msme_relevance`: MSME-keyword matches normalized
to 3 with weight 0.6, plus bonuses of 0.2 / 0.1 / 0.1 when the (nonempty)
industry, business size and legal structure of the user's business context
occur in the lower-cased query; capped at 1.  `userCtx` is `none` when no
user id is given or the collector has no context for the user. -/
def calculateMsmeRelevance (q : Text) (userCtx : Option BusinessContext) : ℚ :=
  let ql := lowerText q
  let base := qmin ((keywordMatches msmeKeywords ql : ℚ) / 3) 1 * (6 / 10)
  let bonus : ℚ :=
    match userCtx with
    | none => 0
    | some bc =>
      (if !bc.industry.isEmpty && containsSub (lowerText bc.industry) ql
        then (2 / 10 : ℚ) else 0)
      + (if !bc.business_size.isEmpty && containsSub (lowerText bc.business_size) ql
        then (1 / 10 : ℚ) else 0)
      + (if !bc.legal_structure.isEmpty && containsSub (lowerText bc.legal_structure) ql
        then (1 / 10 : ℚ) else 0)
  qmin (base + bonus) 1

/-- `ModelRouter.route_query` (the routing decision; the accompanying reason
string is dropped): calculation queries go to Gemini when it is available and
to the calculation engine otherwise; then high MSME relevance with low
complexity picks the SLM, high complexity picks Gemini when available,
medium complexity branches on MSME relevance, and everything else goes to
the SLM.  `geminiAvailable` models `gemini_engine.is_available()`. -/
def routeQuery (q ctx : Text) (userCtx : Option BusinessContext)
    (geminiAvailable : Bool) : RouterModelType :=
  if (detectCalculationQuery q).1 then
    if geminiAvailable then .llm else .calc
  else
    let complexity := calculateComplexity q ctx
    let relevance := calculateMsmeRelevance q userCtx
    if 7 / 10 < relevance ∧ complexity < 5 / 10 then .slm
    else if 7 / 10 < complexity then
      if geminiAvailable then .llm else .slm
    else if 4 / 10 < complexity then
      if 5 / 10 < relevance then .slm
      else if geminiAvailable then .llm else .slm
    else .slm

/-! ## Privacy-aware model manager
(`app/models/model_manager.py`, `PrivacyAwareModelManager`) -/

/-- Model types of `model_manager.ModelType`. -/
inductive MgrModel
  | phi3
  | mistral
  | gemini
deriving DecidableEq, Repr

/-- Sensitivity levels of `model_manager.SensitivityLevel`. -/
inductive MgrSensitivity
  | high
  | medium
  | low
deriving DecidableEq, Repr

/-- The `high_sensitivity_keywords` list of
`PrivacyAwareModelManager.classify_sensitivity`. -/
def mgrHighKeywords : List Text :=
  [txt "personal", txt "private", txt "confidential", txt "my case", txt "my company",
   txt "salary", txt "employee", txt "termination", txt "dispute", txt "lawsuit",
   txt "divorce", txt "property", txt "inheritance", txt "criminal", txt "accused"]

/-- Helper of `splitCount`: counts word starts; `inWord` records whether the
previous character was part of a word. -/
def splitCountAux : Bool → Text → Nat
  | _, [] => 0
  | inWord, c :: rest =>
    if isSpaceCh c then splitCountAux false rest
    else (if inWord then 0 else 1) + splitCountAux true rest

/-- `len(query.split())`: number of maximal non-whitespace runs. -/
def splitCount (t : Text) : Nat := splitCountAux false t

/-- `PrivacyAwareModelManager.classify_sensitivity`: any high-sensitivity
keyword in the lower-cased query gives HIGH; more than 20 whitespace-split
words or a compliance/regulation/license keyword gives MEDIUM; else LOW. -/
def mgrClassifySensitivity (q : Text) : MgrSensitivity :=
  let ql := lowerText q
  if mgrHighKeywords.any (fun w => containsSub w ql) then .high
  else if decide (20 < splitCount q)
      || [txt "compliance", txt "regulation", txt "license"].any
            (fun w => containsSub w ql) then .medium
  else .low

/-- `PrivacyAwareModelManager.route_query`: selects a model by sensitivity
given `models`, the set of successfully initialized models (`self.models`).
HIGH prefers Phi-3, then Mistral, and otherwise falls back to Gemini (after
logging a warning); MEDIUM prefers Mistral, then Phi-3, then Gemini; LOW
prefers Mistral, then Gemini, then Phi-3, and raises `RuntimeError` (modelled
by `Except.error`) when no model at all is available. -/
def mgrRouteQuery (models : List MgrModel) : MgrSensitivity → Except Unit MgrModel
  | .high =>
    if models.contains .phi3 then .ok .phi3
    else if models.contains .mistral then .ok .mistral
    else .ok .gemini
  | .medium =>
    if models.contains .mistral then .ok .mistral
    else if models.contains .phi3 then .ok .phi3
    else .ok .gemini
  | .low =>
    if models.contains .mistral then .ok .mistral
    else if models.contains .gemini then .ok .gemini
    else if models.contains .phi3 then .ok .phi3
    else .error ()

/-! ## The fallback chain of `ModelRouter.generate_response`

The three generation engines (`inference_engine`, `gemini_engine`, and the
calculation path) are external collaborators whose observable behaviour is a
returned string or a raised exception; an `EngineOutcomes` record fixes one
behaviour pattern for each call site, and the chain below mirrors the
`try`/`except` structure of `_generate_with_slm`, `_generate_with_gemini`,
`_generate_with_calculation_engine` and `_get_contextual_fallback`. -/

/-- One behaviour pattern of the external engines for a single request.
`slmResult` is `inference_engine.generate` on the main MSME prompt,
`slmFallbackResult` the same engine on `MSME_FALLBACK_PROMPT`, `geminiResult`
the Gemini call (either flavour), and `calcResult` the calculation path
(extraction, tax computation and formatting), whose exception is caught at
lines 230–232 of `model_router.py`.  `Except.error` models a raised
exception. -/
structure EngineOutcomes where
  slmResult : Except Unit Text
  slmFallbackResult : Except Unit Text
  geminiResult : Except Unit Text
  calcResult : Except Unit Text
  geminiAvailable : Bool

/-- The degenerate-response test of `_generate_with_slm` (line 383):
`not response or "Error:" in response or response.strip() == ""`. -/
def isBadSlmResponse (r : Text) : Bool :=
  r.isEmpty || containsSub (txt "Error:") r || r.all isSpaceCh

/-- The context-specific branch of `_get_contextual_fallback` (line 405):
a deterministic string built from the query and the first 500 context
characters alone. -/
def contextBasedFallbackText (q ctx : Text) : Text :=
  txt "Based on the legal information available, here\x27s what I can tell you about your query:\n\n"
    ++ q
    ++ txt "\n\nRelevant legal context:\n"
    ++ ctx.take 500
    ++ txt "...\n\nFor specific legal advice, please consult with a qualified legal professional."

/-- The final static fallback of `_get_contextual_fallback` (line 416):
a deterministic string built from the query alone. -/
def finalFallbackText (q : Text) : Text :=
  txt "I specialize in helping MSMEs with legal matters in India. Your query: \x27"
    ++ q
    ++ txt "\x27 relates to business law. I can assist with common MSME legal issues such as:\n- Business registration (Udyam, GST)\n- Compliance requirements\n- Employment and labor laws\n- Contract drafting\n- Intellectual property protection\n- Tax obligations\n- Access to finance\n- Export-import regulations\n\nPlease ask more specific questions about these topics, and I\x27ll provide detailed guidance."

/-- `ModelRouter._get_contextual_fallback`: with specific retrieved context
(nonempty and not the generic \"Indian legal system\" blurb) it returns a
context-based string; otherwise it tries the SLM once more on the fallback
prompt, accepting a nonempty response with no error marker, and finally
returns the static MSME fallback text. -/
def contextualFallback (o : EngineOutcomes) (q ctx : Text) : Text :=
  if !ctx.isEmpty && !containsSub (txt "Indian legal system") ctx then
    contextBasedFallbackText q ctx
  else
    match o.slmFallbackResult with
    | .ok r =>
      if !r.isEmpty && !(containsSub (txt "Error:") r || r.all isSpaceCh)
      then r else finalFallbackText q
    | .error _ => finalFallbackText q

/-- `ModelRouter._generate_with_slm`: returns the SLM response unless it is
missing, degenerate or an exception was raised, in which case the contextual
fallback is returned. -/
def generateWithSlm (o : EngineOutcomes) (q ctx : Text) : Text :=
  match o.slmResult with
  | .ok r => if isBadSlmResponse r then contextualFallback o q ctx else r
  | .error _ => contextualFallback o q ctx

/-- `ModelRouter._generate_with_gemini`: returns the Gemini response, and on
an exception falls back to the SLM path. -/
def generateWithGemini (o : EngineOutcomes) (q ctx : Text) : Text :=
  match o.geminiResult with
  | .ok r => r
  | .error _ => generateWithSlm o q ctx

/-- The fixed error reply of `_generate_with_calculation_engine`
(lines 230–232; the exception text interpolated into it is abstracted). -/
def calcErrorText : Text :=
  txt "I encountered an error performing the calculation: \n\nPlease try rephrasing your query with clear financial figures."

/-- `ModelRouter._generate_with_calculation_engine`: the calculation path
(extraction, tax computation, formatting) runs inside a `try`; an exception
produces the fixed error reply. -/
def generateWithCalcEngine (o : EngineOutcomes) : Text :=
  match o.calcResult with
  | .ok r => r
  | .error _ => calcErrorText

/-- `ModelRouter.generate_response` with no explicit model preference:
routes the query and dispatches to the selected engine wrapper. -/
def generateResponse (o : EngineOutcomes) (q ctx : Text)
    (userCtx : Option BusinessContext) : Text :=
  match routeQuery q ctx userCtx o.geminiAvailable with
  | .calc => generateWithCalcEngine o
  | .llm => generateWithGemini o q ctx
  | .slm => generateWithSlm o q ctx

/-- All engine call sites fail (raise) for this request. -/
def allEnginesFail (o : EngineOutcomes) : Prop :=
  o.slmResult = .error () ∧ o.slmFallbackResult = .error ()
    ∧ o.geminiResult = .error () ∧ o.calcResult = .error ()

/-- The deterministic answer the chain produces when every engine fails:
a pure function of the query, the context and the Gemini availability flag
alone. -/
def pureFallbackAnswer (q ctx : Text) (userCtx : Option BusinessContext)
    (geminiAvailable : Bool) : Text :=
  match routeQuery q ctx userCtx geminiAvailable with
  | .calc => calcErrorText
  | _ =>
    if !ctx.isEmpty && !containsSub (txt "Indian legal system") ctx then
      contextBasedFallbackText q ctx
    else finalFallbackText q

/-- The backend vocabulary of the specification: the three generative
backends plus the rule-based terminal fallback generator the specification
requires as the last element of every routing decision. -/
inductive SpecBackend
  | slm
  | llm
  | calc
  | ruleFallback
deriving DecidableEq, Repr

/-- Injection of the router's model types into the spec vocabulary. -/
def RouterModelType.toSpecBackend : RouterModelType → SpecBackend
  | .slm => .slm
  | .llm => .llm
  | .calc => .calc

/-- The ordered backend list produced by `ModelRouter.route_query`: the
router returns exactly one backend (a `ModelType` plus a reason string), so
the list always has exactly one element. -/
def routedBackendList (q ctx : Text) (userCtx : Option BusinessContext)
    (geminiAvailable : Bool) : List SpecBackend :=
  [(routeQuery q ctx userCtx geminiAvailable).toSpecBackend]

/-! ## Hybrid retriever: fusion reranking
(`app/retrieval/hybrid_retriever.py`, `HybridRetriever._combine_and_rerank`) -/

/-- A candidate produced by one retrieval source: a document id, its content
and the source-specific score (`result["score"]` for FAISS candidates,
`result["bm25_score"]` for keyword candidates; unused for metadata
candidates). -/
structure Candidate where
  id : Nat
  content : Text
  score : ℚ
deriving DecidableEq, Repr

/-- One entry of the `all_results` dictionary: content plus the per-source
`scores` sub-dictionary (a key is present when that source contributed). -/
structure FusedEntry where
  id : Nat
  content : Text
  faiss : Option ℚ
  bm25 : Option ℚ
  metadata : Option ℚ
deriving DecidableEq, Repr

/-- `sum(data["scores"].values())`: missing keys contribute nothing. -/
def FusedEntry.combined (e : FusedEntry) : ℚ :=
  e.faiss.getD 0 + e.bm25.getD 0 + e.metadata.getD 0

/-- Python-dict update `all_results[id]` keyed by document id: an existing
entry is updated in place (keeping its content and position, as
`all_results[doc_id]["scores"][...] = ...` does), a missing one is appended
(insertion order of `dict`). -/
def upsertWith (i : Nat) (ct : Text) (f : FusedEntry → FusedEntry) :
    List FusedEntry → List FusedEntry
  | [] => [f { id := i, content := ct, faiss := none, bm25 := none, metadata := none }]
  | e :: es => if e.id == i then f e :: es else e :: upsertWith i ct f es

/-- `all_results[doc_id]["scores"]["faiss"] = result["score"] * 0.5`. -/
def setFaissScore (c : Candidate) (e : FusedEntry) : FusedEntry :=
  { e with faiss := some (c.score * (5 / 10)) }

/-- `all_results[doc_id]["scores"]["bm25"] = result.get("bm25_score", 0) * 0.3`. -/
def setBm25Score (c : Candidate) (e : FusedEntry) : FusedEntry :=
  { e with bm25 := some (c.score * (3 / 10)) }

/-- `all_results[doc_id]["scores"]["metadata"] = 0.2` (fixed metadata score). -/
def setMetadataScore (_ : Candidate) (e : FusedEntry) : FusedEntry :=
  { e with metadata := some (2 / 10) }

/-- One accumulation loop of `_combine_and_rerank`: upsert every candidate of
the list into the dictionary, applying the per-source score setter. -/
def accumulate (g : Candidate → FusedEntry → FusedEntry)
    (cands : List Candidate) (acc : List FusedEntry) : List FusedEntry :=
  cands.foldl (fun a c => upsertWith c.id c.content (g c) a) acc

/-- The `all_results` dictionary after the three accumulation loops of
`_combine_and_rerank`: FAISS scores weighted 0.5, BM25 scores weighted 0.3,
a fixed 0.2 for a metadata match. -/
def combineEntries (faissResults bm25Results metadataResults : List Candidate) :
    List FusedEntry :=
  accumulate setMetadataScore metadataResults
    (accumulate setBm25Score bm25Results
      (accumulate setFaissScore faissResults []))

/-- One combined result row (`{"id": ..., "content": ..., "score": ...}`;
the `scores` sub-dictionary is carried by `FusedEntry`). -/
structure RankedResult where
  id : Nat
  content : Text
  score : ℚ
deriving DecidableEq, Repr

/-- Stable insertion of `x` (an element earlier in the original order) into
an already sorted non-increasing list of later elements: `x` passes over `y`
only when `y` scores strictly higher, so equal scores keep original order. -/
def insertDesc (x : RankedResult) : List RankedResult → List RankedResult
  | [] => [x]
  | y :: ys => if x.score < y.score then y :: insertDesc x ys else x :: y :: ys

/-- The unique stable non-increasing sort by score, matching
`combined_results.sort(key=lambda x: x["score"], reverse=True)` (Python's
sort is stable, and any two stable sorts with the same key agree). -/
def stableSortDesc : List RankedResult → List RankedResult
  | [] => []
  | x :: xs => insertDesc x (stableSortDesc xs)

/-- The `combined_results` list of `_combine_and_rerank` before sorting:
one row per `all_results` entry, in dictionary insertion order, with the
combined score. -/
def combinedResults (faissResults bm25Results metadataResults : List Candidate) :
    List RankedResult :=
  (combineEntries faissResults bm25Results metadataResults).map fun e =>
    { id := e.id, content := e.content, score := e.combined : RankedResult }

/-- `HybridRetriever._combine_and_rerank`: accumulate the three candidate
lists into the `all_results` dictionary, compute the combined score of each
entry, sort non-increasingly by score (stably) and truncate to `limit`. -/
def combineAndRerank (faissResults bm25Results metadataResults : List Candidate)
    (limit : Nat) : List RankedResult :=
  (stableSortDesc (combinedResults faissResults bm25Results metadataResults)).take limit

/-! ## Query cache key
(`app/services/legal_service.py` line 40:
`hashlib.md5(query.encode()).hexdigest()`, used as the key of
`UpstashRedisManager.cache_query_result` / `get_cached_query_result`.)

MD5 (RFC 1321) is implemented below over byte lists so that the key
derivation can be evaluated on concrete queries. -/

/-- Truncation to a 32-bit word. -/
def w32 (n : Nat) : Nat := n % 4294967296

/-- 32-bit addition. -/
def add32 (a b : Nat) : Nat := w32 (a + b)

/-- 32-bit bitwise complement (operands are kept below `2^32`). -/
def not32 (a : Nat) : Nat := 4294967295 - a

/-- 32-bit left rotation by `s` bits. -/
def rotl32 (x s : Nat) : Nat := w32 (x <<< s) ||| (x >>> (32 - s))

/-- The MD5 sine-derived constant table `K[0..63]`. -/
def md5K : List Nat :=
  [0xd76aa478, 0xe8c7b756, 0x242070db, 0xc1bdceee,
   0xf57c0faf, 0x4787c62a, 0xa8304613, 0xfd469501,
   0x698098d8, 0x8b44f7af, 0xffff5bb1, 0x895cd7be,
   0x6b901122, 0xfd987193, 0xa679438e, 0x49b40821,
   0xf61e2562, 0xc040b340, 0x265e5a51, 0xe9b6c7aa,
   0xd62f105d, 0x02441453, 0xd8a1e681, 0xe7d3fbc8,
   0x21e1cde6, 0xc33707d6, 0xf4d50d87, 0x455a14ed,
   0xa9e3e905, 0xfcefa3f8, 0x676f02d9, 0x8d2a4c8a,
   0xfffa3942, 0x8771f681, 0x6d9d6122, 0xfde5380c,
   0xa4beea44, 0x4bdecfa9, 0xf6bb4b60, 0xbebfbc70,
   0x289b7ec6, 0xeaa127fa, 0xd4ef3085, 0x04881d05,
   0xd9d4d039, 0xe6db99e5, 0x1fa27cf8, 0xc4ac5665,
   0xf4292244, 0x432aff97, 0xab9423a7, 0xfc93a039,
   0x655b59c3, 0x8f0ccc92, 0xffeff47d, 0x85845dd1,
   0x6fa87e4f, 0xfe2ce6e0, 0xa3014314, 0x4e0811a1,
   0xf7537e82, 0xbd3af235, 0x2ad7d2bb, 0xeb86d391]

/-- The MD5 per-round left-rotation amounts `S[0..63]`. -/
def md5S : List Nat :=
  [7, 12, 17, 22, 7, 12, 17, 22, 7, 12, 17, 22, 7, 12, 17, 22,
   5, 9, 14, 20, 5, 9, 14, 20, 5, 9, 14, 20, 5, 9, 14, 20,
   4, 11, 16, 23, 4, 11, 16, 23, 4, 11, 16, 23, 4, 11, 16, 23,
   6, 10, 15, 21, 6, 10, 15, 21, 6, 10, 15, 21, 6, 10, 15, 21]

/-- The MD5 nonlinear round function and message-word index for round `i`
given the working registers `b`, `c`, `d`. -/
def md5RoundMix (i b c d : Nat) : Nat × Nat :=
  if i < 16 then ((b &&& c) ||| (not32 b &&& d), i)
  else if i < 32 then ((d &&& b) ||| (not32 d &&& c), (5 * i + 1) % 16)
  else if i < 48 then (b ^^^ c ^^^ d, (3 * i + 5) % 16)
  else (c ^^^ (b ||| not32 d), (7 * i) % 16)

/-- One MD5 round applied to the register quadruple. -/
def md5Round (m : List Nat) (st : Nat × Nat × Nat × Nat) (i : Nat) :
    Nat × Nat × Nat × Nat :=
  let (a, b, c, d) := st
  let (f, g) := md5RoundMix i b c d
  let f2 := add32 (add32 (add32 a f) (md5K.getD i 0)) (m.getD g 0)
  (d, add32 b (rotl32 f2 (md5S.getD i 0)), b, c)

/-- Little-endian decoding of 4 bytes into a 32-bit word. -/
def leWord (b0 b1 b2 b3 : Nat) : Nat := b0 + b1 * 256 + b2 * 65536 + b3 * 16777216

/-- Splits a 64-byte chunk into its 16 little-endian message words. -/
def chunkWords : List Nat → List Nat
  | b0 :: b1 :: b2 :: b3 :: rest => leWord b0 b1 b2 b3 :: chunkWords rest
  | _ => []

/-- Processes one 64-byte chunk, updating the four state words. -/
def md5Chunk (st : Nat × Nat × Nat × Nat) (chunk : List Nat) :
    Nat × Nat × Nat × Nat :=
  let m := chunkWords chunk
  let (a0, b0, c0, d0) := st
  let (a, b, c, d) := (List.range 64).foldl (md5Round m) st
  (add32 a0 a, add32 b0 b, add32 c0 c, add32 d0 d)

/-- Helper of `md5Chunks`: fuel-driven splitting (the fuel bounds the number
of remaining characters, so it never runs out on the actual input). -/
def md5ChunksGo : Nat → List Nat → List (List Nat)
  | 0, _ => []
  | fuel + 1, l => if l.length < 64 then [] else l.take 64 :: md5ChunksGo fuel (l.drop 64)

/-- Splits a byte list into 64-byte chunks (the padded input length is a
multiple of 64). -/
def md5Chunks (l : List Nat) : List (List Nat) := md5ChunksGo l.length l

/-- MD5 padding: a `0x80` byte, zeros to 56 mod 64, then the original bit
length as an 8-byte little-endian quantity. -/
def md5Pad (msg : List Nat) : List Nat :=
  let bitLen := msg.length * 8
  let zeros := (55 - (msg.length % 64) + 64) % 64
  msg ++ [128] ++ List.replicate zeros 0
    ++ ((List.range 8).map fun i => (bitLen >>> (8 * i)) % 256)

/-- Little-endian byte serialization of a 32-bit word. -/
def wordBytes (w : Nat) : List Nat :=
  [w % 256, (w >>> 8) % 256, (w >>> 16) % 256, (w >>> 24) % 256]

/-- MD5 digest of a byte list, as the 16 digest bytes. -/
def md5Bytes (msg : List Nat) : List Nat :=
  let st0 := (0x67452301, 0xefcdab89, 0x98badcfe, 0x10325476)
  let (a, b, c, d) := (md5Chunks (md5Pad msg)).foldl md5Chunk st0
  wordBytes a ++ wordBytes b ++ wordBytes c ++ wordBytes d

/-- Lower-case hexadecimal digit character code for a nibble. -/
def hexDigitCh (n : Nat) : Nat := if n < 10 then 48 + n else 87 + n

/-- `hexdigest()`: the digest bytes as a lower-case hex text. -/
def md5Hex (msg : List Nat) : Text :=
  md5Bytes msg >>= fun b => [hexDigitCh (b >>> 4), hexDigitCh (b % 16)]

/-- UTF-8 encoding of one code point (`str.encode()`). -/
def utf8Char (c : Nat) : List Nat :=
  if c < 128 then [c]
  else if c < 2048 then [192 ||| (c >>> 6), 128 ||| (c &&& 63)]
  else if c < 65536 then
    [224 ||| (c >>> 12), 128 ||| ((c >>> 6) &&& 63), 128 ||| (c &&& 63)]
  else
    [240 ||| (c >>> 18), 128 ||| ((c >>> 12) &&& 63),
     128 ||| ((c >>> 6) &&& 63), 128 ||| (c &&& 63)]

/-- `query.encode()`: UTF-8 bytes of a text. -/
def utf8Encode (t : Text) : List Nat := t >>= utf8Char

/-- The cache key of `LegalService.handle_query` (line 40):
`hashlib.md5(query.encode()).hexdigest()`, computed from the raw query text. -/
def cacheKeyText (q : Text) : Text := md5Hex (utf8Encode q)

set_option maxRecDepth 4096 in
/-- MD5 test vector: the empty message. -/
theorem md5Hex_nil : md5Hex [] = txt "d41d8cd98f00b204e9800998ecf8427e" := by decide

set_option maxRecDepth 4096 in
/-- MD5 test vector: the message `abc`. -/
theorem md5Hex_abc :
    md5Hex (txt "abc") = txt "900150983cd24fb0d6963f7d28e17f72" := by decide

/-- Helper of `specNormalizedText`: copies characters, collapsing whitespace
runs into single spaces; `started` records whether a word has been emitted,
`pending` whether whitespace was seen since. -/
def collapseWsAux : Bool → Bool → Text → Text
  | _, _, [] => []
  | started, pending, c :: rest =>
    if isSpaceCh c then collapseWsAux started true rest
    else if started && pending then 32 :: c :: collapseWsAux true false rest
    else c :: collapseWsAux true false rest

/-- The `normalized_text` of the specification (§3), *modelled from the
spec's words* for comparison with the code: the raw text lower-cased and
whitespace-collapsed.  The source never computes this; its cache key is the
MD5 of the raw text. -/
def specNormalizedText (q : Text) : Text := collapseWsAux false false (lowerText q)

/-! ## Claim theorems -/

/-- C1 counterexample: with no local model loaded (`self.models` containing
only Gemini), `PrivacyAwareModelManager.route_query` routes a HIGH-sensitivity
query to the remote Gemini backend, so the remote backend can appear in the
routing decision for a highly sensitive query. -/
theorem c1_high_routes_to_gemini_counterexample :
    mgrRouteQuery [MgrModel.gemini] .high = .ok .gemini := rfl

/-- C1 (amended): when at least one local model (Phi-3 or Mistral) is loaded,
a HIGH-sensitivity query is never routed to the remote Gemini backend. -/
theorem c1_high_never_gemini_with_local (models : List MgrModel)
    (h : MgrModel.phi3 ∈ models ∨ MgrModel.mistral ∈ models) :
    ∃ m, mgrRouteQuery models .high = .ok m ∧ m ≠ .gemini := by
  rcases h with h | h
  · exact ⟨.phi3, by simp [mgrRouteQuery, h], by decide⟩
  · by_cases h2 : MgrModel.phi3 ∈ models
    · exact ⟨.phi3, by simp [mgrRouteQuery, h2], by decide⟩
    · exact ⟨.mistral, by simp [mgrRouteQuery, h2, h], by decide⟩

/-- C1 witness: with Phi-3 loaded, the HIGH route avoids Gemini. -/
theorem c1_high_never_gemini_with_local_witness :
    ∃ m, mgrRouteQuery [MgrModel.phi3] .high = .ok m ∧ m ≠ .gemini :=
  c1_high_never_gemini_with_local [MgrModel.phi3] (Or.inl (by decide))

/-- C5: any query whose lower-cased text matches a highly sensitive pattern
is classified HIGHLY_SENSITIVE, whatever else it matches: the highly
sensitive groups are tested first and short-circuit. -/
theorem c5_highly_sensitive_priority (q : Text)
    (h : highlyMatch (lowerText q) = true) :
    classifyQuerySensitivity q = .highly_sensitive := by
  simp [classifyQuerySensitivity, h]

/-- C5 witness: a query matching a highly sensitive pattern (`court`) and
two sensitive patterns (`salary`, `account`) is still HIGHLY_SENSITIVE. -/
theorem c5_highly_sensitive_priority_witness :
    highlyMatch (lowerText (txt "My court hearing about my salary account")) = true
      ∧ sensitiveMatch (lowerText (txt "My court hearing about my salary account")) = true
      ∧ classifyQuerySensitivity (txt "My court hearing about my salary account")
          = .highly_sensitive :=
  ⟨by decide, by decide,
    c5_highly_sensitive_priority (txt "My court hearing about my salary account") (by decide)⟩

set_option maxRecDepth 8192 in
/-- C4 counterexample: `GST` and `gst` have the same normalized text, yet
their cache keys (MD5 of the raw text) differ, so equal-up-to-case
submissions do not share a cache entry. -/
theorem c4_cache_key_counterexample :
    specNormalizedText (txt "GST") = specNormalizedText (txt "gst")
      ∧ cacheKeyText (txt "GST") ≠ cacheKeyText (txt "gst") := by decide

set_option maxRecDepth 8192 in
/-- C4 (amended): the cache key is the MD5 hex digest of the raw query text,
with no lower-casing or whitespace collapsing, so submissions differing only
in letter case or in whitespace map to distinct cache entries. -/
theorem c4_cache_key_raw_text :
    (∀ q : Text, cacheKeyText q = md5Hex (utf8Encode q))
      ∧ cacheKeyText (txt "How  are you") ≠ cacheKeyText (txt "How are you")
      ∧ specNormalizedText (txt "How  are you") = specNormalizedText (txt "How are you") :=
  ⟨fun _ => rfl, by decide, by decide⟩

/-- C9: whenever a turnover was extracted and the known expenses are
positive, the extraction sets `misc_expense` to turnover minus the known
expenses, and the subsequent tax calculation therefore reports total
expenses equal to the turnover, a zero profit before tax and a zero income
tax. -/
theorem c9_misc_expense_balances (d : FinancialData) (t : ℚ)
    (h1 : d.turnover = some t)
    (h2 : 0 < d.salary_expense.getD 0 + d.resource_expense.getD 0) :
    (finalizeMiscExpense d).misc_expense
        = some (t - (d.salary_expense.getD 0 + d.resource_expense.getD 0))
      ∧ (calculateTaxLiability (finalizeMiscExpense d)).total_expenses = t
      ∧ (calculateTaxLiability (finalizeMiscExpense d)).profit_before_tax = 0
      ∧ (calculateTaxLiability (finalizeMiscExpense d)).income_tax = 0 := by
  have hfin : finalizeMiscExpense d
      = { d with misc_expense
            := some (t - (d.salary_expense.getD 0 + d.resource_expense.getD 0)) } := by
    simp [finalizeMiscExpense, h1, if_pos h2]
  refine ⟨by simp [hfin], ?_, ?_, ?_⟩
  · simp [hfin, calculateTaxLiability, h1]
  · simp [hfin, calculateTaxLiability, h1]
  · simp [hfin, calculateTaxLiability, h1]

/-- C9 witness: for the extracted data of the query \"Turnover 1 crore,
20 employees, salary 20 lakh\" (turnover ₹10,000,000, salary ₹2,000,000),
the balance property holds concretely. -/
theorem c9_misc_expense_balances_witness :
    (finalizeMiscExpense ⟨some 10000000, some 20, some 2000000, none, none⟩).misc_expense
        = some 8000000
      ∧ (calculateTaxLiability
          (finalizeMiscExpense ⟨some 10000000, some 20, some 2000000, none, none⟩)).income_tax
          = 0 := by
  have h := c9_misc_expense_balances ⟨some 10000000, some 20, some 2000000, none, none⟩
    10000000 rfl (by norm_num)
  exact ⟨by rw [h.1]; norm_num, h.2.2.2⟩

/-- `str.lower` is idempotent character-wise. -/
theorem lowerCh_idem (n : Nat) : lowerCh (lowerCh n) = lowerCh n := by
  simp only [lowerCh, isUpperCh]
  split_ifs with h1 h2 <;> simp_all <;> omega

/-- `str.lower` is idempotent. -/
theorem lowerText_idem (t : Text) : lowerText (lowerText t) = lowerText t := by
  induction t with
  | nil => rfl
  | cons c rest ih =>
    simp only [lowerText, List.map_cons] at ih ⊢
    rw [lowerCh_idem, ih]

/-- A lower-cased character is never an uppercase letter. -/
theorem isUpperCh_lowerCh (n : Nat) : isUpperCh (lowerCh n) = false := by
  simp only [lowerCh, isUpperCh]
  split_ifs with h <;> simp_all <;> omega

/-- The PAN matcher fails at the head of any lower-cased text. -/
theorem panAtHead_lowerText (prev : Option Nat) (c : Nat) (rest : Text) :
    panAtHead prev (lowerText (c :: rest)) = none := by
  simp [panAtHead, lowerText, isUpperCh_lowerCh]

/-- The PAN pattern `\b[A-Z]{5}\d{4}[A-Z]\b` cannot match anywhere in a
lower-cased text. -/
theorem panOccursFrom_lowerText (s : Text) :
    ∀ prev, panOccursFrom prev (lowerText s) = false := by
  induction s with
  | nil => intro prev; rfl
  | cons c rest ih =>
    intro prev
    have hhd := panAtHead_lowerText prev c rest
    simp only [lowerText, List.map_cons] at hhd ⊢
    simp only [panOccursFrom, hhd, Option.isSome_none, Bool.false_or]
    exact ih (some (lowerCh c))

/-- C10: `classify_query_sensitivity` lower-cases its input before matching,
so classification is invariant under lower-casing; the uppercase-only PAN
pattern can therefore never match, and a query whose only sensitive content
is a PAN-format token is classified PUBLIC. -/
theorem c10_lowercase_matching :
    (∀ q : Text, classifyQuerySensitivity (lowerText q) = classifyQuerySensitivity q)
      ∧ (∀ s : Text, panOccurs (lowerText s) = false)
      ∧ classifyQuerySensitivity (txt "Number ABCDE1234F belongs to me") = .public := by
  refine ⟨fun q => ?_, fun s => panOccursFrom_lowerText s none, by decide⟩
  simp only [classifyQuerySensitivity, lowerText_idem]

/-- C3 counterexample: the detector fires on `12345`, which has numeric
tokens but no financial keyword (refuting \"fires exactly when numeric
tokens are present together with financial keywords\"), and the
specification's own calculation scenario routes to the remote Gemini
backend — not the calculation engine — when Gemini is available. -/
theorem c3_calc_detection_counterexample :
    (detectCalculationQuery (txt "12345")).1 = true
      ∧ hasCalcKeyword (txt "12345") = false
      ∧ routeQuery (txt "Turnover 1 crore, 20 employees, salary 20 lakh")
          (txt "") none true = .llm := by
  refine ⟨by decide, by decide, ?_⟩
  have hc : (detectCalculationQuery
      (txt "Turnover 1 crore, 20 employees, salary 20 lakh")).1 = true := by decide
  simp [routeQuery, hc]

/-- C3 (amended): the detector fires exactly when a financial keyword *or* a
numeric token is present, and a detected calculation query is routed to the
remote Gemini backend when Gemini is available, falling back to the
calculation engine only when it is not. -/
theorem c3_calc_detection_and_routing :
    (∀ q : Text, (detectCalculationQuery q).1 = (hasCalcKeyword q || hasNumbers q))
      ∧ (∀ (q ctx : Text) (uc : Option BusinessContext),
          (detectCalculationQuery q).1 = true
          → routeQuery q ctx uc true = .llm ∧ routeQuery q ctx uc false = .calc) := by
  constructor
  · intro q
    by_cases h : (hasCalcKeyword q || hasNumbers q) = true
    · rw [h]
      simp only [detectCalculationQuery, h]
      split <;> simp_all
      repeat' split <;> simp_all
    · simp only [Bool.not_eq_true] at h
      simp [detectCalculationQuery, h]
  · intro q ctx uc h
    constructor <;> simp [routeQuery, h]

/-- C3 witness: the scenario query fires the detector and, with Gemini
unavailable, is routed to the calculation engine. -/
theorem c3_calc_detection_and_routing_witness :
    (detectCalculationQuery (txt "Turnover 1 crore, 20 employees, salary 20 lakh")).1 = true
      ∧ routeQuery (txt "Turnover 1 crore, 20 employees, salary 20 lakh")
          (txt "") none false = .calc :=
  ⟨by decide,
    (c3_calc_detection_and_routing.2
      (txt "Turnover 1 crore, 20 employees, salary 20 lakh") (txt "") none (by decide)).2⟩

unseal Rat.mul Rat.add Rat.sub Rat.inv in
/-- C2 counterexample: the router returns a single backend, not a list whose
last element is the rule-based fallback generator: for the query `hi` the
ordered list is `[slm]`, whose last element is the (fallible) SLM backend. -/
theorem c2_router_list_counterexample :
    (routedBackendList (txt "hi") (txt "") none false).getLast? = some SpecBackend.slm
      ∧ SpecBackend.slm ≠ SpecBackend.ruleFallback := by
  constructor
  · decide
  · decide

/-- C2 (amended): the routing decision always consists of exactly one
backend (so it is non-empty but never ends in a fallback generator); total
answer coverage is instead enforced by the exception handling of
`generate_response`: whenever every engine call fails, the returned answer
is the deterministic rule-based fallback text, a pure function of the query,
the context and the Gemini availability flag alone. -/
theorem c2_total_coverage :
    (∀ (q ctx : Text) (uc : Option BusinessContext) (g : Bool),
        routedBackendList q ctx uc g ≠ [])
      ∧ (∀ (o : EngineOutcomes) (q ctx : Text) (uc : Option BusinessContext),
          allEnginesFail o
          → generateResponse o q ctx uc = pureFallbackAnswer q ctx uc o.geminiAvailable) := by
  constructor
  · intro q ctx uc g
    simp [routedBackendList]
  · rintro o q ctx uc ⟨h1, h2, h3, h4⟩
    unfold generateResponse pureFallbackAnswer
    cases routeQuery q ctx uc o.geminiAvailable <;>
      simp [generateWithCalcEngine, generateWithGemini, generateWithSlm,
        contextualFallback, h1, h2, h3, h4]

/-- C2 witness: with every engine failing, the chain still produces the
deterministic fallback answer for a concrete query. -/
theorem c2_total_coverage_witness :
    generateResponse ⟨.error (), .error (), .error (), .error (), false⟩
        (txt "hi") (txt "") none
      = pureFallbackAnswer (txt "hi") (txt "") none false :=
  c2_total_coverage.2 ⟨.error (), .error (), .error (), .error (), false⟩
    (txt "hi") (txt "") none ⟨rfl, rfl, rfl, rfl⟩

/-! ### Sorting lemmas for the fusion reranker -/

/-- Members of an insertion are the inserted element or old members. -/
theorem mem_insertDesc {x z : RankedResult} {l : List RankedResult}
    (h : z ∈ insertDesc x l) : z = x ∨ z ∈ l := by
  induction l with
  | nil => simpa [insertDesc] using h
  | cons y ys ih =>
    simp only [insertDesc] at h
    split at h
    · rcases List.mem_cons.1 h with h | h
      · exact Or.inr (List.mem_cons.2 (Or.inl h))
      · rcases ih h with h | h
        · exact Or.inl h
        · exact Or.inr (List.mem_cons.2 (Or.inr h))
    · rcases List.mem_cons.1 h with h | h
      · exact Or.inl h
      · exact Or.inr h

/-- Insertion preserves the non-increasing ordering. -/
theorem pairwise_insertDesc (x : RankedResult) (l : List RankedResult)
    (h : l.Pairwise fun a b => b.score ≤ a.score) :
    (insertDesc x l).Pairwise fun a b => b.score ≤ a.score := by
  induction l with
  | nil => simp [insertDesc]
  | cons y ys ih =>
    rcases List.pairwise_cons.1 h with ⟨hy, hys⟩
    simp only [insertDesc]
    split
    · refine List.pairwise_cons.2 ⟨?_, ih hys⟩
      intro z hz
      rcases mem_insertDesc hz with rfl | hz
      · rename_i hlt
        exact le_of_lt hlt
      · exact hy z hz
    · refine List.pairwise_cons.2 ⟨?_, h⟩
      intro z hz
      rename_i hnlt
      rcases List.mem_cons.1 hz with rfl | hz
      · exact le_of_not_lt hnlt
      · exact le_trans (hy z hz) (le_of_not_lt hnlt)

/-- The stable sort produces a non-increasing list. -/
theorem pairwise_stableSortDesc (l : List RankedResult) :
    (stableSortDesc l).Pairwise fun a b => b.score ≤ a.score := by
  induction l with
  | nil => simp [stableSortDesc]
  | cons x xs ih => exact pairwise_insertDesc x _ ih

/-- Insertion is a permutation of consing. -/
theorem perm_insertDesc (x : RankedResult) (l : List RankedResult) :
    List.Perm (insertDesc x l) (x :: l) := by
  induction l with
  | nil => exact List.Perm.refl _
  | cons y ys ih =>
    simp only [insertDesc]
    split
    · exact ((ih.cons y).trans (List.Perm.swap x y ys))
    · exact List.Perm.refl _

/-- The stable sort permutes its input. -/
theorem perm_stableSortDesc (l : List RankedResult) :
    List.Perm (stableSortDesc l) l := by
  induction l with
  | nil => exact List.Perm.refl _
  | cons x xs ih => exact (perm_insertDesc x _).trans (ih.cons x)

/-- Key spine of a dictionary upsert: an update leaves the keys unchanged,
an insert appends the new key (for entry transformers preserving the id). -/
theorem ids_upsertWith (i : Nat) (ct : Text) (f : FusedEntry → FusedEntry)
    (hf : ∀ e, (f e).id = e.id) (l : List FusedEntry) :
    (upsertWith i ct f l).map FusedEntry.id
      = if i ∈ l.map FusedEntry.id then l.map FusedEntry.id
        else l.map FusedEntry.id ++ [i] := by
  induction l with
  | nil => simp [upsertWith, hf]
  | cons e es ih =>
    simp only [upsertWith]
    by_cases he : e.id = i
    · simp [he, hf]
    · have : (e.id == i) = false := by simpa using he
      simp only [this, Bool.false_eq_true, if_false, List.map_cons, ih]
      by_cases hm : i ∈ es.map FusedEntry.id
      · simp [hm, Ne.symm he]
      · simp [hm, Ne.symm he]

/-- A dictionary upsert preserves distinctness of the keys. -/
theorem nodup_upsertWith (i : Nat) (ct : Text) (f : FusedEntry → FusedEntry)
    (hf : ∀ e, (f e).id = e.id) (l : List FusedEntry)
    (h : (l.map FusedEntry.id).Nodup) :
    ((upsertWith i ct f l).map FusedEntry.id).Nodup := by
  rw [ids_upsertWith i ct f hf l]
  split
  · exact h
  · rename_i hm
    simp [List.nodup_append, h, hm]

/-- Accumulating candidates by upserts preserves key distinctness. -/
theorem nodup_accumulate (g : Candidate → FusedEntry → FusedEntry)
    (hg : ∀ c e, (g c e).id = e.id) (cands : List Candidate) :
    ∀ acc : List FusedEntry, (acc.map FusedEntry.id).Nodup →
      ((accumulate g cands acc).map FusedEntry.id).Nodup := by
  induction cands with
  | nil => intro acc h; simpa [accumulate] using h
  | cons c cs ih =>
    intro acc h
    exact ih _ (nodup_upsertWith c.id c.content (g c) (hg c) acc h)

/-- The `all_results` dictionary has pairwise distinct document ids. -/
theorem nodup_combineEntries (f b m : List Candidate) :
    ((combineEntries f b m).map FusedEntry.id).Nodup := by
  have h1 := nodup_accumulate setFaissScore (fun c e => rfl) f [] List.nodup_nil
  have h2 := nodup_accumulate setBm25Score (fun c e => rfl) b _ h1
  have h3 := nodup_accumulate setMetadataScore (fun c e => rfl) m _ h2
  exact h3

/-- The combined rows carry the dictionary ids. -/
theorem ids_combinedResults (f b m : List Candidate) :
    (combinedResults f b m).map RankedResult.id
      = (combineEntries f b m).map FusedEntry.id := by
  simp [combinedResults, List.map_map]

/-- C7: for all candidate sets the fusion output is at most `limit` long,
is sorted non-increasingly by combined score, repeats no document id, and is
empty (not an error) when all three inputs are empty. -/
theorem c7_fusion_reranker_contract (f b m : List Candidate) (lim : Nat) :
    (combineAndRerank f b m lim).length ≤ lim
      ∧ (combineAndRerank f b m lim).Pairwise (fun x y => y.score ≤ x.score)
      ∧ ((combineAndRerank f b m lim).map RankedResult.id).Nodup
      ∧ (f = [] → b = [] → m = [] → combineAndRerank f b m lim = []) := by
  refine ⟨?_, ?_, ?_, ?_⟩
  · exact List.length_take_le lim _
  · exact (pairwise_stableSortDesc _).sublist (List.take_sublist _ _)
  · have hperm : List.Perm
        ((stableSortDesc (combinedResults f b m)).map RankedResult.id)
        ((combinedResults f b m).map RankedResult.id) :=
      (perm_stableSortDesc _).map RankedResult.id
    have hnd : ((stableSortDesc (combinedResults f b m)).map RankedResult.id).Nodup :=
      (hperm.nodup_iff).2 (by rw [ids_combinedResults]; exact nodup_combineEntries f b m)
    show (((stableSortDesc (combinedResults f b m)).take lim).map RankedResult.id).Nodup
    rw [List.map_take]
    exact hnd.sublist (List.take_sublist _ _)
  · rintro rfl rfl rfl
    simp [combineAndRerank, combinedResults, combineEntries, accumulate, stableSortDesc]

/-- C7 witness: the all-empty-inputs case returns the empty list. -/
theorem c7_fusion_reranker_contract_witness :
    combineAndRerank [] [] [] 5 = [] :=
  (c7_fusion_reranker_contract [] [] [] 5).2.2.2 rfl rfl rfl

unseal Rat.mul Rat.add Rat.sub Rat.inv in
/-- C8 counterexample: two candidates with equal fused scores, first seen in
the order document 2 then document 1, are output in that order — `[2, 1]` —
not ascending by document id. -/
theorem c8_tie_break_counterexample :
    (combineAndRerank [⟨2, [], 1⟩, ⟨1, [], 1⟩] [] [] 10).map RankedResult.id = [2, 1]
      ∧ (combineAndRerank [⟨2, [], 1⟩, ⟨1, [], 1⟩] [] [] 10).map RankedResult.score
          = [5 / 10, 5 / 10] := by
  constructor
  · decide
  · decide

/-- Filtering by an exact score commutes with stable insertion: the element
is inserted before every equal-scored element (strictly greater ones are
passed over), so the filtered slice keeps the element in front. -/
theorem filter_insertDesc (x : RankedResult) (l : List RankedResult) (s : ℚ) :
    (insertDesc x l).filter (fun r => r.score == s)
      = if x.score == s
        then x :: l.filter (fun r => r.score == s)
        else l.filter (fun r => r.score == s) := by
  induction l with
  | nil =>
    by_cases hx : x.score = s <;> simp [insertDesc, hx]
  | cons y ys ih =>
    simp only [insertDesc]
    split
    · rename_i hlt
      by_cases hx : x.score = s
      · have hy : (y.score == s) = false := by
          simp only [beq_eq_false_iff_ne, ne_eq]
          intro hy
          rw [hx, hy] at hlt
          exact lt_irrefl s hlt
        simp [List.filter_cons, hy, ih, hx]
      · have hx2 : (x.score == s) = false := by simpa using hx
        simp [List.filter_cons, ih, hx2]
    · by_cases hx : x.score = s <;> simp [List.filter_cons, hx]

/-- Filtering by an exact score commutes with the stable sort: equal-scored
rows appear in the sorted output in their original (first-seen) order. -/
theorem filter_stableSortDesc (l : List RankedResult) (s : ℚ) :
    (stableSortDesc l).filter (fun r => r.score == s)
      = l.filter (fun r => r.score == s) := by
  induction l with
  | nil => rfl
  | cons x xs ih =>
    simp only [stableSortDesc, filter_insertDesc, List.filter_cons, ih]

/-- C8 (amended): ties in the fusion reranker keep the first-seen dictionary
order of `all_results` — the sort is stable — rather than ascending document
id: for every score, the equal-scored slice of the sorted output equals the
equal-scored slice of the pre-sort combined list. -/
theorem c8_ties_keep_insertion_order (f b m : List Candidate) (s : ℚ) :
    (stableSortDesc (combinedResults f b m)).filter (fun r => r.score == s)
      = (combinedResults f b m).filter (fun r => r.score == s) :=
  filter_stableSortDesc (combinedResults f b m) s

/-! ## Privacy layer: redaction
(`app/privacy/privacy_layer.py`, `PrivacyLayer.anonymize_text`)

`anonymize_text` applies six `re.sub` substitutions in sequence.  Each is
embedded as a head matcher (the matched length at the start of the text,
following `re` greedy/backtracking semantics for that concrete pattern) and
a generic scanning substitution `substFrom` with `re.sub` semantics:
leftmost, non-overlapping matches, scanning the original text. -/

/-- Head matcher type: given the preceding character and the remaining text,
the length of the regex match starting here, if any. -/
abbrev Matcher := Option Nat → Text → Option Nat

/-- The email local-part class `[A-Za-z0-9._%+-]`. -/
def localCh (n : Nat) : Bool :=
  isUpperCh n || isLowerCh n || isDigitCh n
    || n == 46 || n == 95 || n == 37 || n == 43 || n == 45

/-- The email domain class `[A-Za-z0-9.-]`. -/
def domCh (n : Nat) : Bool :=
  isUpperCh n || isLowerCh n || isDigitCh n || n == 46 || n == 45

/-- The email top-level-domain class `[A-Z|a-z]` (it contains `|`). -/
def tldCh (n : Nat) : Bool := isUpperCh n || isLowerCh n || n == 124

/-- Match of `\b\d{3}-\d{3}-\d{4}\b` at the head of `s`. -/
def phoneAtHead (prev : Option Nat) (s : Text) : Option Nat :=
  match s with
  | d1 :: d2 :: d3 :: h1 :: d4 :: d5 :: d6 :: h2 :: d7 :: d8 :: d9 :: d10 :: rest =>
    if !isWordOpt prev
        && isDigitCh d1 && isDigitCh d2 && isDigitCh d3 && h1 == 45
        && isDigitCh d4 && isDigitCh d5 && isDigitCh d6 && h2 == 45
        && isDigitCh d7 && isDigitCh d8 && isDigitCh d9 && isDigitCh d10
        && !isWordOpt rest.head?
    then some 12 else none
  | _ => none

/-- Length of the run of `cls` characters starting at index `i` of `s`. -/
def runLenFrom (cls : Nat → Bool) (s : Text) (i : Nat) : Nat := runLen cls (s.drop i)

/-- Backtracking search for the `[A-Z|a-z]{2,}\b` part of the email pattern:
given the index `dot` of the matched `\.` and a candidate greedy length, try
lengths down to 2, looking for one whose last character is followed by a
word boundary; returns the end index (exclusive) of the whole match. -/
def tldSearch (s : Text) (dot : Nat) : Nat → Option Nat
  | 0 => none
  | 1 => none
  | u + 2 =>
    if isWordOpt (s.get? (dot + (u + 2))) != isWordOpt (s.get? (dot + (u + 2) + 1))
    then some (dot + (u + 2) + 1)
    else tldSearch s dot (u + 1)

/-- Backtracking search for the `\.` after the greedy `[A-Za-z0-9.-]+`
domain part: `q` is the index right after `@`; candidate domain lengths are
tried greedily from the full run down to 1, and for each `.` found the TLD
search runs; returns the end index (exclusive) of the whole match. -/
def domSearch (s : Text) (q : Nat) : Nat → Option Nat
  | 0 => none
  | t + 1 =>
    if s.get? (q + (t + 1)) == some 46 then
      match tldSearch s (q + (t + 1)) (runLenFrom tldCh s (q + (t + 1) + 1)) with
      | some e => some e
      | none => domSearch s q t
    else domSearch s q t

/-- Match of `\b[A-Za-z0-9._%+-]+@[A-Za-z0-9.-]+\.[A-Z|a-z]{2,}\b` at the
head of `s`.  The greedy local part is forced (it must be followed by `@`,
which is not in its class), the domain dot and TLD length are found by
backtracking. -/
def emailAtHead (prev : Option Nat) (s : Text) : Option Nat :=
  match s with
  | [] => none
  | c :: _ =>
    if isWordOpt prev == isWordCh c then none
    else
      let L := runLen localCh s
      if L == 0 then none
      else if s.get? L == some 64 then
        let D := runLenFrom domCh s (L + 1)
        if D == 0 then none else domSearch s (L + 1) D
      else none

/-- `re.sub(pattern, repl, s)`: scan left to right; at a match, emit the
replacement and continue after the match (the character preceding the
remainder is the last matched character of the original text, as `re`
evaluates `\b` against the original string). -/
def substFrom (m : Matcher) (repl : Text) : Option Nat → Text → Text
  | _, [] => []
  | prev, c :: rest =>
    match m prev (c :: rest) with
    | some (len + 1) =>
      repl ++ substFrom m repl (((c :: rest).take (len + 1)).getLast?) (rest.drop len)
    | _ => c :: substFrom m repl (some c) rest
termination_by _ t => t.length
decreasing_by
  · simp only [List.length_cons, List.length_drop]; omega
  · simp only [List.length_cons]; omega

/-- Scan for a match anywhere (`re.search` as a Boolean). -/
def hasMatchFrom (m : Matcher) : Option Nat → Text → Bool
  | _, [] => false
  | prev, c :: rest => (m prev (c :: rest)).isSome || hasMatchFrom m (some c) rest

/-- `"[REDACTED_AADHAR]"` as code points. -/
def replAadhar : Text :=
  [91, 82, 69, 68, 65, 67, 84, 69, 68, 95, 65, 65, 68, 72, 65, 82, 93]

/-- `"[REDACTED_PAN]"` as code points. -/
def replPan : Text := [91, 82, 69, 68, 65, 67, 84, 69, 68, 95, 80, 65, 78, 93]

/-- `"[REDACTED_ACCOUNT]"` as code points. -/
def replAccount : Text :=
  [91, 82, 69, 68, 65, 67, 84, 69, 68, 95, 65, 67, 67, 79, 85, 78, 84, 93]

/-- `"[REDACTED_EMAIL]"` as code points. -/
def replEmail : Text := [91, 82, 69, 68, 65, 67, 84, 69, 68, 95, 69, 77, 65, 73, 76, 93]

/-- `"[REDACTED_PHONE]"` as code points. -/
def replPhone : Text := [91, 82, 69, 68, 65, 67, 84, 69, 68, 95, 80, 72, 79, 78, 69, 93]

/-- `PrivacyLayer.anonymize_text`: the six `re.sub` substitutions in source
order — Aadhar-like 12-digit runs, PAN-format tokens, 10–16-digit account
numbers, email addresses, 10-digit phone numbers, and 3-3-4 hyphenated
phone numbers. -/
def anonymizeText (t : Text) : Text :=
  substFrom phoneAtHead replPhone none
    (substFrom (digitRunAtHead 10 10) replPhone none
      (substFrom emailAtHead replEmail none
        (substFrom (digitRunAtHead 10 16) replAccount none
          (substFrom panAtHead replPan none
            (substFrom (digitRunAtHead 12 12) replAadhar none t)))))

/-! ### Idempotence of redaction: occurrence framework

A *span predicate* `S pw w nxt` states that `w` is exactly the text matched
by one of the six patterns, where `pw` is the word-character status of the
character preceding the span (`false` at the start of the string) and `nxt`
the word-character status of the character following it (`false` at the
end).  An *occurrence* of `S` in a text is a decomposition exhibiting such a
span.  Each head matcher is proved equivalent to its span predicate, and the
idempotence proof shows that after `anonymize_text` no occurrence of any of
the six patterns remains. -/

/-- Word status of the position after prefix `a`, when the status before `a`
is `pw`. -/
def ctxW (pw : Bool) (a : Text) : Bool :=
  match a.getLast? with
  | none => pw
  | some c => isWordCh c

/-- Word status of the first character of `b` (`false` when `b` is empty). -/
def nextW (b : Text) : Bool := isWordOpt b.head?

/-- An occurrence of span predicate `S` somewhere in `t`, with `pw` the word
status before `t`. -/
def Occurs (S : Bool → Text → Bool → Prop) (pw : Bool) (t : Text) : Prop :=
  ∃ a w b, t = a ++ w ++ b ∧ S (ctxW pw a) w (nextW b)

/-- An occurrence at the head of `t`. -/
def OccursHead (S : Bool → Text → Bool → Prop) (pw : Bool) (t : Text) : Prop :=
  ∃ w b, t = w ++ b ∧ S pw w (nextW b)

/-- An occurrence at a positive position of `t` (the prefix is nonempty, so
the context is the actual previous character and `pw` is irrelevant). -/
def OccursPos (S : Bool → Text → Bool → Prop) (t : Text) : Prop :=
  ∃ a w b, t = a ++ w ++ b ∧ a ≠ [] ∧ S (ctxW false a) w (nextW b)

/-- Span of `\b\d{lo,hi}\b`: a nonempty all-digit run of length in range
delimited by word boundaries (digits are word characters, so both
neighbouring statuses are non-word). -/
def RunSpan (lo hi : Nat) (pw : Bool) (w : Text) (nxt : Bool) : Prop :=
  w ≠ [] ∧ w.all isDigitCh = true ∧ lo ≤ w.length ∧ w.length ≤ hi
    ∧ pw = false ∧ nxt = false

/-- Span of `\b[A-Z]{5}\d{4}[A-Z]\b`. -/
def PanSpan (pw : Bool) (w : Text) (nxt : Bool) : Prop :=
  w.length = 10 ∧ (w.take 5).all isUpperCh = true
    ∧ ((w.drop 5).take 4).all isDigitCh = true
    ∧ (∃ c, w.get? 9 = some c ∧ isUpperCh c = true)
    ∧ pw = false ∧ nxt = false

/-- Span of `\b\d{3}-\d{3}-\d{4}\b`. -/
def PhoneSpan (pw : Bool) (w : Text) (nxt : Bool) : Prop :=
  ∃ d1 d2 d3 d4 d5 d6 d7 d8 d9 d10,
    w = [d1, d2, d3, 45, d4, d5, d6, 45, d7, d8, d9, d10]
    ∧ (isDigitCh d1 && isDigitCh d2 && isDigitCh d3 && isDigitCh d4 && isDigitCh d5
        && isDigitCh d6 && isDigitCh d7 && isDigitCh d8 && isDigitCh d9
        && isDigitCh d10) = true
    ∧ pw = false ∧ nxt = false

/-- Span of `\b[A-Za-z0-9._%+-]+@[A-Za-z0-9.-]+\.[A-Z|a-z]{2,}\b`: a
nonempty local part, `@`, a nonempty domain part, `.`, and a TLD of length
at least 2, with word boundaries at both ends. -/
def EmailSpan (pw : Bool) (w : Text) (nxt : Bool) : Prop :=
  ∃ l d tl, w = l ++ 64 :: (d ++ 46 :: tl)
    ∧ l ≠ [] ∧ l.all localCh = true
    ∧ d ≠ [] ∧ d.all domCh = true
    ∧ 2 ≤ tl.length ∧ tl.all tldCh = true
    ∧ pw = !isWordOpt l.head?
    ∧ nxt = !isWordOpt tl.getLast?

/-- Character classes a span of each pattern can be made of: digits for the
digit runs, uppercase letters and digits for PAN, digits and `-` for the
hyphenated phone, and the email classes together with `@` and `.`. -/
def emailSpanCh (n : Nat) : Bool :=
  localCh n || n == 64 || domCh n || n == 46 || tldCh n

/-- Digit or `@`: the characters every span needs at least one of, and the
replacement strings contain none of. -/
def needCh (n : Nat) : Bool := isDigitCh n || n == 64

/-- A digit is a word character. -/
theorem isWordCh_of_isDigitCh {n : Nat} (h : isDigitCh n = true) : isWordCh n = true := by
  simp [isWordCh, h]

/-- The head of the remainder after dropping `n` characters. -/
theorem head?_drop_eq_get? (s : Text) (n : Nat) : (s.drop n).head? = s.get? n := by
  induction s generalizing n with
  | nil => simp
  | cons c rest ih =>
    cases n with
    | zero => simp
    | succ k => simpa using ih k

/-- The leading digit run is no longer than the text. -/
theorem countDigits_le_length (s : Text) : countDigits s ≤ s.length := by
  induction s with
  | nil => simp [countDigits, runLen]
  | cons c rest ih =>
    simp only [countDigits, runLen] at ih ⊢
    split <;> simp <;> omega

/-- The leading digit run consists of digits. -/
theorem take_countDigits_all (s : Text) : (s.take (countDigits s)).all isDigitCh = true := by
  induction s with
  | nil => simp
  | cons c rest ih =>
    simp only [countDigits, runLen]
    split
    · rename_i hc
      simpa [List.take_succ_cons, hc] using ih
    · simp

/-- The character right after the leading digit run is not a digit. -/
theorem get?_countDigits_not_digit (s : Text) {c : Nat}
    (h : s.get? (countDigits s) = some c) : isDigitCh c = false := by
  induction s with
  | nil => simp at h
  | cons d rest ih =>
    simp only [countDigits, runLen] at h ⊢
    by_cases hd : isDigitCh d
    · rw [if_pos hd] at h
      exact ih (by simpa using h)
    · rw [if_neg hd] at h
      simp only [List.get?] at h
      cases h
      simpa using hd

/-- Leading digit run of an all-digit list extended by a remainder. -/
theorem countDigits_append_all {w : Text} (hw : w.all isDigitCh = true) (b : Text) :
    countDigits (w ++ b) = w.length + countDigits b := by
  induction w with
  | nil => simp
  | cons c rest ih =>
    simp only [List.all_cons, Bool.and_eq_true] at hw
    simp only [List.cons_append, countDigits, runLen, hw.1, if_pos]
    have h2 := ih hw.2
    simp only [countDigits] at h2
    rw [show rest.append b = rest ++ b from rfl, h2]
    simp only [List.length_cons]
    omega

/-- A text whose first character is non-word starts with no digits. -/
theorem countDigits_eq_zero_of_nextW {s : Text} (h : nextW s = false) :
    countDigits s = 0 := by
  cases s with
  | nil => rfl
  | cons c rest =>
    simp only [nextW, List.head?_cons, isWordOpt] at h
    simp only [countDigits, runLen]
    rw [if_neg]
    intro hc
    rw [isWordCh_of_isDigitCh hc] at h
    exact absurd h (by simp)

/-- A successful digit-run match yields a digit-run span (matcher to span). -/
theorem digitRunAtHead_span {lo hi : Nat} {prev : Option Nat} {s : Text} {k : Nat}
    (h : digitRunAtHead lo hi prev s = some k) :
    k ≤ s.length ∧ RunSpan lo hi (isWordOpt prev) (s.take k) (nextW (s.drop k)) := by
  match s, h with
  | c :: rest, h =>
    simp only [digitRunAtHead] at h
    by_cases hcp : (isDigitCh c && !isWordOpt prev) = true
    · rw [if_pos hcp] at h
      by_cases hcond : (decide (lo ≤ countDigits (c :: rest)) &&
          decide (countDigits (c :: rest) ≤ hi) &&
          !isWordOpt ((c :: rest).get? (countDigits (c :: rest)))) = true
      · rw [if_pos hcond] at h
        cases h
        simp only [Bool.and_eq_true, decide_eq_true_eq, Bool.not_eq_true'] at hcp hcond
        have hlen := countDigits_le_length (c :: rest)
        refine ⟨hlen, ?_, ?_, ?_, ?_, hcp.2, ?_⟩
        · have h1 : 1 ≤ countDigits (c :: rest) := by
            simp only [countDigits, runLen, hcp.1, if_pos]
            omega
          intro hem
          have := congrArg List.length hem
          simp only [List.length_take, List.length_nil] at this
          omega
        · exact take_countDigits_all (c :: rest)
        · rw [List.length_take]
          omega
        · rw [List.length_take]
          omega
        · rw [nextW, head?_drop_eq_get?]
          cases hg : (c :: rest).get? (countDigits (c :: rest)) with
          | none => rfl
          | some d =>
            rw [hg] at hcond
            exact hcond.2
      · rw [if_neg hcond] at h
        exact absurd h (by simp)
    · rw [if_neg hcp] at h
      exact absurd h (by simp)

/-- A digit-run span at the head makes the matcher succeed (span to matcher). -/
theorem span_digitRunAtHead {lo hi : Nat} {prev : Option Nat} {w b : Text}
    (h : RunSpan lo hi (isWordOpt prev) w (nextW b)) :
    digitRunAtHead lo hi prev (w ++ b) = some w.length := by
  obtain ⟨hne, hall, hlo, hhi, hpw, hnxt⟩ := h
  match w, hne with
  | c :: w0, _ =>
    have hcd : isDigitCh c = true := by
      have := hall
      simp only [List.all_cons, Bool.and_eq_true] at this
      exact this.1
    have hcount : countDigits (c :: (w0 ++ b)) = (c :: w0).length := by
      rw [show c :: (w0 ++ b) = (c :: w0) ++ b from rfl,
        countDigits_append_all hall b, countDigits_eq_zero_of_nextW hnxt]
      omega
    have hget : (w0 ++ b)[w0.length]? = b.head? := by
      rw [List.getElem?_append_right (Nat.le_refl _), Nat.sub_self]
      cases b <;> simp
    have hn2 : isWordOpt b.head? = false := hnxt
    simp only [List.length_cons] at hlo hhi
    simp only [digitRunAtHead, List.cons_append, hcount]
    rw [if_pos (show (isDigitCh c && !isWordOpt prev) = true by simp [hcd, hpw]),
      if_pos (show (decide (lo ≤ (c :: w0).length) && decide ((c :: w0).length ≤ hi)
        && !isWordOpt ((c :: (w0 ++ b)).get? (c :: w0).length)) = true
        by simp [hget, hlo, hhi, hn2])]


/-- A successful PAN match yields a PAN span (matcher to span). -/
theorem panAtHead_span {prev : Option Nat} {s : Text} {k : Nat}
    (h : panAtHead prev s = some k) :
    k ≤ s.length ∧ PanSpan (isWordOpt prev) (s.take k) (nextW (s.drop k)) := by
  unfold panAtHead at h
  split at h
  case isFalse => exact absurd h (by simp)
  case isTrue hc =>
    cases h
    simp only [Bool.and_eq_true, beq_iff_eq, Bool.not_eq_true'] at hc
    obtain ⟨⟨⟨⟨⟨⟨hprev, h5⟩, hu5⟩, h4⟩, hd4⟩, h9⟩, h10⟩ := hc
    have hlen10 : 10 ≤ s.length := by
      rcases hg : s.get? 9 with _ | c
      · rw [hg] at h9; simp at h9
      · have := List.get?_eq_some.1 hg
        obtain ⟨hlt, _⟩ := this
        omega
    refine ⟨hlen10, ?_, ?_, ?_, ?_, hprev, ?_⟩
    · rw [List.length_take]; omega
    · rw [List.take_take]; simpa using hu5
    · rw [List.drop_take, show (10 : Nat) - 5 = 5 from rfl, List.take_take,
        show min 4 5 = 4 from rfl]
      exact hd4
    · rcases hg : s.get? 9 with _ | c
      · rw [hg] at h9; simp at h9
      · refine ⟨c, ?_, by rw [hg] at h9; simpa using h9⟩
        rw [List.get?_eq_getElem?, List.getElem?_take_of_lt (by omega),
          ← List.get?_eq_getElem?]
        exact hg
    · rw [nextW, head?_drop_eq_get?]
      rcases hg : s.get? 10 with _ | c
      · rfl
      · rw [hg] at h10
        simpa using h10

/-- A PAN span at the head makes the matcher succeed (span to matcher). -/
theorem span_panAtHead {prev : Option Nat} {w b : Text}
    (h : PanSpan (isWordOpt prev) w (nextW b)) :
    panAtHead prev (w ++ b) = some w.length := by
  obtain ⟨hlen, hu5, hd4, ⟨c9, hg9, hu9⟩, hpw, hnxt⟩ := h
  have ht5 : (w ++ b).take 5 = w.take 5 := List.take_append_of_le_length (by omega)
  have hd5 : (w ++ b).drop 5 = w.drop 5 ++ b := List.drop_append_of_le_length (by omega)
  have ht4 : ((w ++ b).drop 5).take 4 = (w.drop 5).take 4 := by
    rw [hd5]
    exact List.take_append_of_le_length (by rw [List.length_drop]; omega)
  have hg9w : (w ++ b).get? 9 = some c9 := by
    rw [List.get?_eq_getElem?, List.getElem?_append_left (by omega), ← List.get?_eq_getElem?]
    exact hg9
  have hg10 : (w ++ b).get? 10 = b.head? := by
    rw [List.get?_eq_getElem?, List.getElem?_append_right (by omega)]
    rw [hlen]
    norm_num
    cases b <;> simp
  unfold panAtHead
  rw [if_pos]
  · rw [hlen]
  · rw [ht5, ht4, hg9w, hg10]
    simp only [Bool.and_eq_true, beq_iff_eq, Bool.not_eq_true']
    exact ⟨⟨⟨⟨⟨⟨hpw, by rw [List.length_take]; omega⟩, hu5⟩,
      by rw [List.length_take, List.length_drop]; omega⟩, hd4⟩,
      by simpa using hu9⟩, by simpa [nextW] using hnxt⟩

/-- A successful phone match yields a phone span (matcher to span). -/
theorem phoneAtHead_span {prev : Option Nat} {s : Text} {k : Nat}
    (h : phoneAtHead prev s = some k) :
    k ≤ s.length ∧ PhoneSpan (isWordOpt prev) (s.take k) (nextW (s.drop k)) := by
  unfold phoneAtHead at h
  split at h
  · rename_i d1 d2 d3 h1 d4 d5 d6 h2 d7 d8 d9 d10 rest
    split at h
    · rename_i hc
      cases h
      simp only [Bool.and_eq_true, beq_iff_eq, Bool.not_eq_true'] at hc
      obtain ⟨⟨⟨⟨⟨⟨⟨⟨⟨⟨⟨⟨⟨hprev, hd1⟩, hd2⟩, hd3⟩, hh1⟩, hd4⟩, hd5⟩, hd6⟩, hh2⟩, hd7⟩,
        hd8⟩, hd9⟩, hd10⟩, hrest⟩ := hc
      refine ⟨by simp, d1, d2, d3, d4, d5, d6, d7, d8, d9, d10, ?_, ?_, hprev, ?_⟩
      · simp [List.take, hh1, hh2]
      · simp [hd1, hd2, hd3, hd4, hd5, hd6, hd7, hd8, hd9, hd10]
      · simpa [nextW] using hrest
    · exact absurd h (by simp)
  · exact absurd h (by simp)

/-- A phone span at the head makes the matcher succeed (span to matcher). -/
theorem span_phoneAtHead {prev : Option Nat} {w b : Text}
    (h : PhoneSpan (isWordOpt prev) w (nextW b)) :
    phoneAtHead prev (w ++ b) = some w.length := by
  obtain ⟨d1, d2, d3, d4, d5, d6, d7, d8, d9, d10, hw, hds, hpw, hnxt⟩ := h
  subst hw
  simp only [Bool.and_eq_true] at hds
  obtain ⟨⟨⟨⟨⟨⟨⟨⟨⟨hd1, hd2⟩, hd3⟩, hd4⟩, hd5⟩, hd6⟩, hd7⟩, hd8⟩, hd9⟩, hd10⟩ := hds
  simp only [List.cons_append, List.nil_append]
  simp only [phoneAtHead]
  rw [if_pos]
  · simp
  · simp only [Bool.and_eq_true, beq_iff_eq, Bool.not_eq_true']
    refine ⟨⟨⟨⟨⟨⟨⟨⟨⟨⟨⟨⟨⟨hpw, hd1⟩, hd2⟩, hd3⟩, trivial⟩, hd4⟩, hd5⟩, hd6⟩, trivial⟩, hd7⟩,
      hd8⟩, hd9⟩, hd10⟩, by simpa [nextW] using hnxt⟩

/-- A run is no longer than the text. -/
theorem runLen_le_length (cls : Nat → Bool) (s : Text) : runLen cls s ≤ s.length := by
  induction s with
  | nil => simp [runLen]
  | cons c rest ih =>
    simp only [runLen]
    split <;> simp <;> omega

/-- The run prefix is made of class characters. -/
theorem take_runLen_all (cls : Nat → Bool) (s : Text) :
    (s.take (runLen cls s)).all cls = true := by
  induction s with
  | nil => simp
  | cons c rest ih =>
    simp only [runLen]
    split
    · rename_i hc
      simpa [List.take_succ_cons, hc] using ih
    · simp

/-- Any prefix of the run is made of class characters. -/
theorem take_le_runLen_all (cls : Nat → Bool) (s : Text) {n : Nat}
    (h : n ≤ runLen cls s) : (s.take n).all cls = true := by
  have h2 := take_runLen_all cls s
  have h3 : s.take n = (s.take (runLen cls s)).take n := by
    rw [List.take_take, Nat.min_eq_left h]
  rw [h3]
  rw [List.all_eq_true] at h2 ⊢
  intro x hx
  exact h2 x (List.mem_of_mem_take hx)

/-- The character right after the run is not in the class. -/
theorem get?_runLen_not (cls : Nat → Bool) (s : Text) {c : Nat}
    (h : s.get? (runLen cls s) = some c) : cls c = false := by
  induction s with
  | nil => simp at h
  | cons d rest ih =>
    simp only [runLen] at h ⊢
    by_cases hd : cls d
    · rw [if_pos hd] at h
      exact ih (by simpa using h)
    · rw [if_neg hd] at h
      simp only [List.get?] at h
      cases h
      simpa using hd

/-- A run extends through an all-class prefix. -/
theorem runLen_append_all {cls : Nat → Bool} {a : Text} (ha : a.all cls = true)
    (b : Text) : runLen cls (a ++ b) = a.length + runLen cls b := by
  induction a with
  | nil => simp
  | cons c rest ih =>
    simp only [List.all_cons, Bool.and_eq_true] at ha
    simp only [List.cons_append, runLen, ha.1, if_pos, List.length_cons]
    rw [show rest.append b = rest ++ b from rfl, ih ha.2]
    omega

/-- A run is empty when the first character is outside the class. -/
theorem runLen_eq_zero_of_head {cls : Nat → Bool} {s : Text}
    (h : ∀ c, s.head? = some c → cls c = false) : runLen cls s = 0 := by
  cases s with
  | nil => rfl
  | cons c rest =>
    simp only [runLen]
    rw [if_neg]
    intro hc
    exact absurd (h c rfl) (by simp [hc])

/-- A successful TLD search yields a length-`u` candidate whose end is a word
boundary (matcher to witness direction). -/
theorem tldSearch_some {s : Text} {dot n e : Nat} (h : tldSearch s dot n = some e) :
    ∃ u, 2 ≤ u ∧ u ≤ n
      ∧ (isWordOpt (s.get? (dot + u)) != isWordOpt (s.get? (dot + u + 1))) = true
      ∧ e = dot + u + 1 := by
  induction n with
  | zero => simp [tldSearch] at h
  | succ m ih =>
    match m, h with
    | 0, h => simp [tldSearch] at h
    | v + 1, h =>
      rw [tldSearch] at h
      split at h
      · rename_i hb
        cases h
        exact ⟨v + 2, by omega, by omega, hb, rfl⟩
      · obtain ⟨u, hu2, hun, hb, he⟩ := ih h
        exact ⟨u, hu2, by omega, hb, he⟩

/-- A length-`u` candidate ending at a word boundary makes the TLD search
succeed (witness to matcher direction). -/
theorem tldSearch_isSome {s : Text} {dot n : Nat}
    (h : ∃ u, 2 ≤ u ∧ u ≤ n
      ∧ (isWordOpt (s.get? (dot + u)) != isWordOpt (s.get? (dot + u + 1))) = true) :
    (tldSearch s dot n).isSome = true := by
  induction n with
  | zero => obtain ⟨u, hu2, hun, _⟩ := h; omega
  | succ m ih =>
    obtain ⟨u, hu2, hun, hb⟩ := h
    match m with
    | 0 => omega
    | v + 1 =>
      rw [tldSearch]
      split
      · simp
      · rename_i hbtop
        refine ih ⟨u, hu2, ?_, hb⟩
        rcases Nat.lt_or_ge u (v + 2) with hlt | hge
        · omega
        · have : u = v + 2 := by omega
          subst this
          exact absurd hb (by simpa using hbtop)

/-- A successful domain search yields a dot offset `t` at which the TLD
search succeeds (matcher to witness direction). -/
theorem domSearch_some {s : Text} {q n e : Nat} (h : domSearch s q n = some e) :
    ∃ t, 1 ≤ t ∧ t ≤ n ∧ s.get? (q + t) = some 46
      ∧ tldSearch s (q + t) (runLenFrom tldCh s (q + t + 1)) = some e := by
  induction n with
  | zero => simp [domSearch] at h
  | succ m ih =>
    rw [domSearch] at h
    split at h
    · rename_i hdot
      split at h
      · rename_i e2 htld
        cases h
        exact ⟨m + 1, by omega, by omega, by simpa using hdot, htld⟩
      · obtain ⟨t, h1, h2, h3, h4⟩ := ih h
        exact ⟨t, h1, by omega, h3, h4⟩
    · obtain ⟨t, h1, h2, h3, h4⟩ := ih h
      exact ⟨t, h1, by omega, h3, h4⟩

/-- A dot offset at which the TLD search succeeds makes the domain search
succeed (witness to matcher direction). -/
theorem domSearch_isSome {s : Text} {q n : Nat}
    (h : ∃ t, 1 ≤ t ∧ t ≤ n ∧ s.get? (q + t) = some 46
      ∧ (tldSearch s (q + t) (runLenFrom tldCh s (q + t + 1))).isSome = true) :
    (domSearch s q n).isSome = true := by
  induction n with
  | zero => obtain ⟨t, h1, h2, _⟩ := h; omega
  | succ m ih =>
    obtain ⟨t, h1, h2, h3, h4⟩ := h
    rw [domSearch]
    split
    · split
      · simp
      · rename_i htld
        rcases Nat.lt_or_ge t (m + 1) with hlt | hge
        · exact ih ⟨t, h1, by omega, h3, h4⟩
        · have : t = m + 1 := by omega
          subst this
          rw [Option.isSome_iff_exists] at h4
          obtain ⟨e, he⟩ := h4
          rw [he] at htld
          exact absurd htld (by simp)
    · rename_i hdot
      rcases Nat.lt_or_ge t (m + 1) with hlt | hge
      · exact ih ⟨t, h1, by omega, h3, h4⟩
      · have : t = m + 1 := by omega
        subst this
        exact absurd h3 (by simpa using hdot)

/-- Splitting a drop at a known character. -/
theorem drop_eq_cons_of_get? {s : Text} {i c : Nat} (h : s.get? i = some c) :
    s.drop i = c :: s.drop (i + 1) := by
  induction s generalizing i with
  | nil => simp at h
  | cons d rest ih =>
    cases i with
    | zero =>
      simp only [List.get?] at h
      cases h
      simp
    | succ j =>
      simp only [List.get?] at h
      simpa using ih h

/-- A successful email match at the head is an email span of the matched
length (matcher to span). -/
theorem emailAtHead_span {prev : Option Nat} {s : Text} {k : Nat}
    (h : emailAtHead prev s = some k) :
    k ≤ s.length ∧ EmailSpan (isWordOpt prev) (s.take k) (nextW (s.drop k)) := by
  match s, h with
  | c :: rest, h =>
    simp only [emailAtHead] at h
    split at h
    · exact absurd h (by simp)
    · rename_i hc
      split at h
      · exact absurd h (by simp)
      · rename_i hL0
        split at h
        · rename_i hat
          split at h
          · exact absurd h (by simp)
          · rename_i hD0
            obtain ⟨t, ht1, htD, hdot, htld⟩ := domSearch_some h
            obtain ⟨u, hu2, hun, hb, hk⟩ := tldSearch_some htld
            subst hk
            set L := runLen localCh (c :: rest) with hLdef
            have hL1 : 1 ≤ L := by
              rcases Nat.eq_zero_or_pos L with h0 | h1
              · exact absurd h0 (by simpa using hL0)
              · exact h1
            have hkle : L + 1 + t + u + 1 ≤ (c :: rest).length := by
              by_contra hgt
              push_neg at hgt
              have h1 : (c :: rest).get? (L + 1 + t + u) = none :=
                List.get?_eq_none.mpr (by omega)
              have h2 : (c :: rest).get? (L + 1 + t + u + 1) = none :=
                List.get?_eq_none.mpr (by omega)
              rw [h1, h2] at hb
              simp [isWordOpt] at hb
            refine ⟨hkle, (c :: rest).take L, ((c :: rest).drop (L + 1)).take t,
              ((c :: rest).drop (L + 1 + t + 1)).take u, ?_, ?_, ?_, ?_, ?_, ?_, ?_, ?_, ?_⟩
            · -- decomposition of the matched prefix
              have e1 : (c :: rest).get? L = some 64 := by simpa using hat
              have e2 := drop_eq_cons_of_get? e1
              have e3 := drop_eq_cons_of_get? hdot
              rw [show L + 1 + t + u + 1 = L + ((t + (u + 1)) + 1) from by omega,
                List.take_add, e2, List.take_succ_cons, List.take_add, List.drop_drop,
                e3, List.take_succ_cons]
            · -- the local part is nonempty
              obtain ⟨m, hm⟩ : ∃ m, L = m + 1 := ⟨L - 1, by omega⟩
              rw [hm]
              simp
            · exact take_runLen_all localCh (c :: rest)
            · -- the domain part is nonempty
              have : 0 < (((c :: rest).drop (L + 1)).take t).length := by
                simp only [List.length_take, List.length_drop]
                omega
              exact List.ne_nil_of_length_pos this
            · exact take_le_runLen_all domCh _ (by simpa [runLenFrom] using htD)
            · simp only [List.length_take, List.length_drop]
              omega
            · exact take_le_runLen_all tldCh _ (by simpa [runLenFrom] using hun)
            · -- the leading boundary
              have hh : ((c :: rest).take L).head? = some c := by
                obtain ⟨m, hm⟩ : ∃ m, L = m + 1 := ⟨L - 1, by omega⟩
                rw [hm]
                simp
              rw [hh]
              simp only [isWordOpt] at hc ⊢
              revert hc
              cases isWordOpt prev <;> cases isWordCh c <;> simp
            · -- the trailing boundary
              have hlast : (((c :: rest).drop (L + 1 + t + 1)).take u).getLast?
                  = (c :: rest).get? (L + 1 + t + u) := by
                rw [List.getLast?_eq_getElem?]
                have hlen : (((c :: rest).drop (L + 1 + t + 1)).take u).length = u := by
                  simp only [List.length_take, List.length_drop]
                  omega
                rw [hlen, List.getElem?_take, if_pos (show u - 1 < u from by omega),
                  List.getElem?_drop,
                  show L + 1 + t + 1 + (u - 1) = L + 1 + t + u from by omega,
                  List.get?_eq_getElem?]
              rw [hlast]
              simp only [nextW, head?_drop_eq_get?]
              revert hb
              cases isWordOpt ((c :: rest).get? (L + 1 + t + u)) <;>
                cases isWordOpt ((c :: rest).get? (L + 1 + t + u + 1)) <;> simp
        · exact absurd h (by simp)

/-- An email span at the head makes the matcher succeed (span to matcher);
backtracking may pick a longer match, so only success is claimed. -/
theorem span_emailAtHead {prev : Option Nat} {w b : Text}
    (h : EmailSpan (isWordOpt prev) w (nextW b)) :
    (emailAtHead prev (w ++ b)).isSome = true := by
  obtain ⟨l, d, tl, hw, hl, hlall, hd, hdall, htl2, htlall, hpw, hnxt⟩ := h
  obtain ⟨ti, tc, hti⟩ : ∃ ti tc, tl = ti ++ [tc] := by
    rcases List.eq_nil_or_concat tl with h0 | ⟨ti, tc, h1⟩
    · subst h0; simp at htl2
    · exact ⟨ti, tc, by simpa [List.concat_eq_append] using h1⟩
  subst hw
  subst hti
  cases l with
  | nil => exact absurd rfl hl
  | cons c l0 =>
    have gp : ∀ (p r : Text) (n : Nat), n = p.length → (p ++ r).get? n = r.head? := by
      intro p r n hn
      subst hn
      rw [← head?_drop_eq_get?, List.drop_left]
    have gd : ∀ (p r : Text) (n : Nat), n = p.length → (p ++ r).drop n = r := by
      intro p r n hn
      subst hn
      exact List.drop_left p r
    simp only [List.cons_append, List.append_assoc, List.singleton_append, List.nil_append, emailAtHead]
    have hL : runLen localCh (c :: (l0 ++ 64 :: (d ++ 46 :: (ti ++ tc :: b))))
        = l0.length + 1 := by
      rw [show c :: (l0 ++ 64 :: (d ++ 46 :: (ti ++ tc :: b)))
          = (c :: l0) ++ (64 :: (d ++ 46 :: (ti ++ tc :: b))) from by simp,
        runLen_append_all hlall]
      have hz : runLen localCh (64 :: (d ++ 46 :: (ti ++ tc :: b))) = 0 := by
        apply runLen_eq_zero_of_head
        intro x hx
        simp only [List.head?_cons, Option.some.injEq] at hx
        subst hx
        decide
      rw [hz]
      simp
    rw [hL]
    have hpw2 : isWordOpt prev = !isWordCh c := by
      simpa [isWordOpt] using hpw
    rw [if_neg (by rw [hpw2]; cases isWordCh c <;> simp)]
    rw [if_neg (by simp)]
    have hat : (c :: (l0 ++ 64 :: (d ++ 46 :: (ti ++ tc :: b)))).get? (l0.length + 1)
        = some 64 := by
      rw [show c :: (l0 ++ 64 :: (d ++ 46 :: (ti ++ tc :: b)))
          = (c :: l0) ++ (64 :: (d ++ 46 :: (ti ++ tc :: b))) from by simp,
        gp _ _ _ (by simp)]
      simp
    rw [if_pos (by rw [hat]; rfl)]
    have hDval : runLenFrom domCh (c :: (l0 ++ 64 :: (d ++ 46 :: (ti ++ tc :: b))))
        (l0.length + 1 + 1) = d.length + 1 + runLen domCh (ti ++ tc :: b) := by
      simp only [runLenFrom]
      rw [show c :: (l0 ++ 64 :: (d ++ 46 :: (ti ++ tc :: b)))
          = ((c :: l0) ++ [64]) ++ (d ++ 46 :: (ti ++ tc :: b)) from by simp,
        gd ((c :: l0) ++ [64]) (d ++ 46 :: (ti ++ tc :: b)) (l0.length + 1 + 1) (by simp)]
      rw [show d ++ 46 :: (ti ++ tc :: b) = (d ++ [46]) ++ (ti ++ tc :: b) from by simp,
        runLen_append_all (show (d ++ [46]).all domCh = true from by simp [hdall, domCh])]
      simp
    rw [if_neg (by rw [hDval]; simp)]
    apply domSearch_isSome
    refine ⟨d.length, List.length_pos.mpr hd, by rw [hDval]; omega, ?_, ?_⟩
    · rw [show c :: (l0 ++ 64 :: (d ++ 46 :: (ti ++ tc :: b)))
          = ((c :: l0) ++ 64 :: d) ++ (46 :: (ti ++ tc :: b)) from by simp,
        gp _ _ _ (by simp; omega)]
      simp
    · apply tldSearch_isSome
      have hTval : runLenFrom tldCh (c :: (l0 ++ 64 :: (d ++ 46 :: (ti ++ tc :: b))))
          (l0.length + 1 + 1 + d.length + 1)
          = ti.length + 1 + runLen tldCh b := by
        simp only [runLenFrom]
        rw [show c :: (l0 ++ 64 :: (d ++ 46 :: (ti ++ tc :: b)))
            = ((c :: l0) ++ 64 :: (d ++ [46])) ++ (ti ++ tc :: b) from by simp,
          gd ((c :: l0) ++ 64 :: (d ++ [46])) (ti ++ tc :: b)
            (l0.length + 1 + 1 + d.length + 1) (by simp; omega)]
        rw [show ti ++ tc :: b = (ti ++ [tc]) ++ b from by simp,
          runLen_append_all htlall]
        simp
      refine ⟨ti.length + 1, by simpa using htl2, by rw [hTval]; omega, ?_⟩
      have g1 : (c :: (l0 ++ 64 :: (d ++ 46 :: (ti ++ tc :: b)))).get?
          (l0.length + 1 + 1 + d.length + (ti.length + 1)) = some tc := by
        rw [show c :: (l0 ++ 64 :: (d ++ 46 :: (ti ++ tc :: b)))
            = ((c :: l0) ++ 64 :: (d ++ 46 :: ti)) ++ (tc :: b) from by simp,
          gp _ _ _ (by simp; omega)]
        simp
      have g2 : (c :: (l0 ++ 64 :: (d ++ 46 :: (ti ++ tc :: b)))).get?
          (l0.length + 1 + 1 + d.length + (ti.length + 1) + 1) = b.head? := by
        rw [show c :: (l0 ++ 64 :: (d ++ 46 :: (ti ++ tc :: b)))
            = ((c :: l0) ++ 64 :: (d ++ 46 :: (ti ++ [tc]))) ++ b from by simp,
          gp _ _ _ (by simp; omega)]
      rw [g1, g2]
      have hnxt2 : isWordOpt b.head? = !isWordCh tc := by
        simpa [nextW, isWordOpt] using hnxt
      rw [hnxt2]
      simp only [isWordOpt]
      cases isWordCh tc <;> simp

/-- The last element of an append with a nonempty right part. -/
theorem getLast?_append_ne {a : Text} (x : Text) (h : a ≠ []) :
    (x ++ a).getLast? = a.getLast? := by
  induction x with
  | nil => rfl
  | cons c x0 ih =>
    rw [List.cons_append]
    cases hx : x0 ++ a with
    | nil =>
      rcases List.append_eq_nil.mp hx with ⟨_, h2⟩
      exact absurd h2 h
    | cons y ys =>
      rw [← hx, ← ih]
      rw [hx, List.getLast?_cons_cons]

/-- The last element of a cons with a nonempty tail. -/
theorem getLast?_cons_ne {a : Text} (c : Nat) (h : a ≠ []) :
    (c :: a).getLast? = a.getLast? := by
  cases a with
  | nil => exact absurd rfl h
  | cons y ys => exact List.getLast?_cons_cons

/-- Context propagation across an append. -/
theorem ctxW_append (pw : Bool) (x a : Text) :
    ctxW pw (x ++ a) = ctxW (ctxW pw x) a := by
  cases ha : a with
  | nil => simp [ctxW]
  | cons c a0 =>
    simp only [ctxW]
    rw [getLast?_append_ne x (by simp)]
    cases hg : (c :: a0).getLast? with
    | none => exact absurd (List.getLast?_eq_none.mp hg) (by simp)
    | some d => rfl

/-- The context after a nonempty prefix ignores the incoming status. -/
theorem ctxW_of_ne_nil (pw1 pw2 : Bool) {a : Text} (h : a ≠ []) :
    ctxW pw1 a = ctxW pw2 a := by
  simp only [ctxW]
  cases hg : a.getLast? with
  | none => exact absurd (List.getLast?_eq_none.mp hg) h
  | some c => rfl

/-- An occurrence in a suffix lifts to the whole text. -/
theorem occurs_lift {S : Bool → Text → Bool → Prop} {pw : Bool} {x r : Text}
    (h : Occurs S (ctxW pw x) r) : Occurs S pw (x ++ r) := by
  obtain ⟨a, w, b, hr, hS⟩ := h
  exact ⟨x ++ a, w, b, by rw [hr]; simp [List.append_assoc], by rwa [ctxW_append]⟩

/-- The shared shape of the six redaction spans: nonempty, delimited by
word boundaries on both sides (encoded against the span ends), free of the
bracket characters `[` and `]`, and containing a digit or `@` — the
characters the replacement strings lack. -/
def GoodSpan (S : Bool → Text → Bool → Prop) : Prop :=
  ∀ pw w nxt, S pw w nxt → w ≠ []
    ∧ pw = !isWordOpt w.head?
    ∧ nxt = !isWordOpt w.getLast?
    ∧ (∀ x ∈ w, (x == 91 || x == 93) = false)
    ∧ (∃ x ∈ w, needCh x = true)

/-- The last element is a member. -/
theorem mem_of_getLast?_eq {a : Text} {c : Nat} (h : a.getLast? = some c) : c ∈ a := by
  rw [List.getLast?_eq_getElem?] at h
  rw [← List.get?_eq_getElem?] at h
  exact List.get?_mem h

/-- The head of a positive-length prefix. -/
theorem head?_take_pos {s : Text} {n : Nat} (h : 1 ≤ n) : (s.take n).head? = s.head? := by
  cases s with
  | nil => simp
  | cons c rest =>
    obtain ⟨m, rfl⟩ : ∃ m, n = m + 1 := ⟨n - 1, by omega⟩
    simp

/-- A digit is not a bracket. -/
theorem no_bracket_of_digit {x : Nat} (h : isDigitCh x = true) :
    (x == 91 || x == 93) = false := by
  simp only [isDigitCh, decide_eq_true_eq] at h
  simp only [Bool.or_eq_false_iff, beq_eq_false_iff_ne, ne_eq]
  omega

/-- An uppercase letter is not a bracket. -/
theorem no_bracket_of_upper {x : Nat} (h : isUpperCh x = true) :
    (x == 91 || x == 93) = false := by
  simp only [isUpperCh, decide_eq_true_eq] at h
  simp only [Bool.or_eq_false_iff, beq_eq_false_iff_ne, ne_eq]
  omega

/-- An email local-part character is not a bracket. -/
theorem no_bracket_of_localCh {x : Nat} (h : localCh x = true) :
    (x == 91 || x == 93) = false := by
  simp only [localCh, isUpperCh, isLowerCh, isDigitCh, Bool.or_eq_true,
    decide_eq_true_eq, beq_iff_eq] at h
  simp only [Bool.or_eq_false_iff, beq_eq_false_iff_ne, ne_eq]
  omega

/-- An email domain character is not a bracket. -/
theorem no_bracket_of_domCh {x : Nat} (h : domCh x = true) :
    (x == 91 || x == 93) = false := by
  simp only [domCh, isUpperCh, isLowerCh, isDigitCh, Bool.or_eq_true,
    decide_eq_true_eq, beq_iff_eq] at h
  simp only [Bool.or_eq_false_iff, beq_eq_false_iff_ne, ne_eq]
  omega

/-- An email TLD character is not a bracket. -/
theorem no_bracket_of_tldCh {x : Nat} (h : tldCh x = true) :
    (x == 91 || x == 93) = false := by
  simp only [tldCh, isUpperCh, isLowerCh, Bool.or_eq_true,
    decide_eq_true_eq, beq_iff_eq] at h
  simp only [Bool.or_eq_false_iff, beq_eq_false_iff_ne, ne_eq]
  omega

/-- An uppercase letter is a word character. -/
theorem isWordCh_of_isUpperCh {n : Nat} (h : isUpperCh n = true) : isWordCh n = true := by
  simp [isWordCh, h]

/-- Digit-run spans are good redaction spans. -/
theorem goodSpan_run (lo hi : Nat) : GoodSpan (RunSpan lo hi) := by
  intro pw w nxt h
  obtain ⟨hne, hall, hlo, hhi, hpw, hnxt⟩ := h
  rw [List.all_eq_true] at hall
  obtain ⟨c, w0, rfl⟩ : ∃ c w0, w = c :: w0 := by
    cases w with
    | nil => exact absurd rfl hne
    | cons c w0 => exact ⟨c, w0, rfl⟩
  refine ⟨by simp, ?_, ?_, ?_, ⟨c, by simp, ?_⟩⟩
  · have hc : isDigitCh c = true := hall c (by simp)
    simp [isWordOpt, hpw, isWordCh_of_isDigitCh hc]
  · cases hg : (c :: w0).getLast? with
    | none => exact absurd (List.getLast?_eq_none.mp hg) (by simp)
    | some dd =>
      have hd : isDigitCh dd = true := hall dd (mem_of_getLast?_eq hg)
      simp [isWordOpt, hnxt, isWordCh_of_isDigitCh hd]
  · intro x hx
    exact no_bracket_of_digit (hall x hx)
  · simp [needCh, hall c (by simp)]

/-- Hyphenated phone spans are good redaction spans. -/
theorem goodSpan_phone : GoodSpan PhoneSpan := by
  intro pw w nxt h
  obtain ⟨d1, d2, d3, d4, d5, d6, d7, d8, d9, d10, hw, hds, hpw, hnxt⟩ := h
  subst hw
  simp only [Bool.and_eq_true] at hds
  obtain ⟨⟨⟨⟨⟨⟨⟨⟨⟨hd1, hd2⟩, hd3⟩, hd4⟩, hd5⟩, hd6⟩, hd7⟩, hd8⟩, hd9⟩, hd10⟩ := hds
  refine ⟨by simp, ?_, ?_, ?_, ⟨d1, by simp, ?_⟩⟩
  · simp [isWordOpt, hpw, isWordCh_of_isDigitCh hd1]
  · simp [isWordOpt, hnxt, List.getLast?_cons_cons, isWordCh_of_isDigitCh hd10]
  · intro x hx
    simp only [List.mem_cons, List.not_mem_nil, or_false] at hx
    rcases hx with rfl | rfl | rfl | rfl | rfl | rfl | rfl | rfl | rfl | rfl | rfl | rfl
    · exact no_bracket_of_digit hd1
    · exact no_bracket_of_digit hd2
    · exact no_bracket_of_digit hd3
    · decide
    · exact no_bracket_of_digit hd4
    · exact no_bracket_of_digit hd5
    · exact no_bracket_of_digit hd6
    · decide
    · exact no_bracket_of_digit hd7
    · exact no_bracket_of_digit hd8
    · exact no_bracket_of_digit hd9
    · exact no_bracket_of_digit hd10
  · simp [needCh, hd1]

/-- PAN spans are good redaction spans. -/
theorem goodSpan_pan : GoodSpan PanSpan := by
  intro pw w nxt h
  obtain ⟨hlen, hu5, hd4, ⟨c9, hg9, hu9⟩, hpw, hnxt⟩ := h
  rw [List.all_eq_true] at hu5 hd4
  have hne : w ≠ [] := by
    intro h0
    subst h0
    simp at hlen
  refine ⟨hne, ?_, ?_, ?_, ?_⟩
  · -- head is the head of the uppercase block
    cases hh : w.head? with
    | none => exact absurd (List.head?_eq_none_iff.mp hh) hne
    | some c0 =>
      have hc0 : isUpperCh c0 = true := by
        refine hu5 c0 ?_
        have : (w.take 5).head? = some c0 := by rw [head?_take_pos (by omega), hh]
        cases ht : w.take 5 with
        | nil => rw [ht] at this; simp at this
        | cons y ys =>
          rw [ht] at this
          simp only [List.head?_cons, Option.some.injEq] at this
          subst this
          simp [ht]
      simp [isWordOpt, hpw, isWordCh_of_isUpperCh hc0]
  · -- last is the position-9 uppercase character
    have hg : w.getLast? = some c9 := by
      rw [List.getLast?_eq_getElem?, hlen, ← List.get?_eq_getElem?]
      simpa using hg9
    simp [hg, isWordOpt, hnxt, isWordCh_of_isUpperCh hu9]
  · intro x hx
    rw [List.mem_iff_get?] at hx
    obtain ⟨i, hi⟩ := hx
    have hilt : i < 10 := by
      by_contra hge
      rw [List.get?_eq_none.mpr (by omega)] at hi
      cases hi
    rcases Nat.lt_or_ge i 5 with h5 | h5
    · refine no_bracket_of_upper (hu5 x ?_)
      have : (w.take 5).get? i = some x := by
        rw [List.get?_eq_getElem?, List.getElem?_take, if_pos h5, ← List.get?_eq_getElem?]
        exact hi
      exact List.get?_mem this
    · rcases Nat.lt_or_ge i 9 with h9 | h9
      · refine no_bracket_of_digit (hd4 x ?_)
        have : ((w.drop 5).take 4).get? (i - 5) = some x := by
          rw [List.get?_eq_getElem?, List.getElem?_take, if_pos (by omega),
            List.getElem?_drop, ← List.get?_eq_getElem?,
            show 5 + (i - 5) = i from by omega]
          exact hi
        exact List.get?_mem this
      · have : i = 9 := by omega
        subst this
        rw [hg9] at hi
        cases hi
        exact no_bracket_of_upper hu9
  · -- position 5 is a digit
    have h5lt : 5 < w.length := by omega
    cases h5 : w.get? 5 with
    | none =>
      rw [List.get?_eq_none] at h5
      omega
    | some x5 =>
      refine ⟨x5, List.get?_mem h5, ?_⟩
      have hx5 : isDigitCh x5 = true := by
        refine hd4 x5 ?_
        have : ((w.drop 5).take 4).get? 0 = some x5 := by
          rw [List.get?_eq_getElem?, List.getElem?_take, if_pos (by omega),
            List.getElem?_drop, ← List.get?_eq_getElem?]
          simpa using h5
        exact List.get?_mem this
      simp [needCh, hx5]

/-- Email spans are good redaction spans. -/
theorem goodSpan_email : GoodSpan EmailSpan := by
  intro pw w nxt h
  obtain ⟨l, d, tl, hw, hl, hlall, hd, hdall, htl2, htlall, hpw, hnxt⟩ := h
  subst hw
  rw [List.all_eq_true] at hlall hdall htlall
  have htlne : tl ≠ [] := by
    intro h0
    subst h0
    simp at htl2
  obtain ⟨c, l0, rfl⟩ : ∃ c l0, l = c :: l0 := by
    cases l with
    | nil => exact absurd rfl hl
    | cons c l0 => exact ⟨c, l0, rfl⟩
  refine ⟨by simp, ?_, ?_, ?_, ⟨64, by simp, by decide⟩⟩
  · simpa using hpw
  · rw [hnxt]
    rw [show (c :: l0) ++ 64 :: (d ++ 46 :: tl) = ((c :: l0) ++ 64 :: d ++ [46]) ++ tl
      from by simp]
    rw [getLast?_append_ne _ htlne]
  · intro x hx
    simp only [List.mem_append, List.mem_cons] at hx
    rcases hx with (hx | hx) | rfl | hx | rfl | hx
    · exact no_bracket_of_localCh (hlall x (by simp [hx]))
    · exact no_bracket_of_localCh (hlall x (by simp [hx]))
    · decide
    · exact no_bracket_of_domCh (hdall x hx)
    · decide
    · exact no_bracket_of_tldCh (htlall x hx)

/-- A match of a good-span matcher is nonempty and fits in the text. -/
theorem match_len_pos {m : Matcher} {S : Bool → Text → Bool → Prop}
    (hms : ∀ pv s k, m pv s = some k →
      k ≤ s.length ∧ S (isWordOpt pv) (s.take k) (nextW (s.drop k)))
    (hgs : GoodSpan S) {pv : Option Nat} {s : Text} {k : Nat} (h : m pv s = some k) :
    1 ≤ k ∧ k ≤ s.length := by
  obtain ⟨hk, hS⟩ := hms pv s k h
  have hne := (hgs _ _ _ hS).1
  refine ⟨?_, hk⟩
  by_contra h0
  push_neg at h0
  have : k = 0 := by omega
  subst this
  simp at hne

/-- The leading word boundary of a match: the first matched character has
the opposite word status of the preceding one. -/
theorem match_head_status {m : Matcher} {S : Bool → Text → Bool → Prop}
    (hms : ∀ pv s k, m pv s = some k →
      k ≤ s.length ∧ S (isWordOpt pv) (s.take k) (nextW (s.drop k)))
    (hgs : GoodSpan S) {pv : Option Nat} {s : Text} {k : Nat} (h : m pv s = some k) :
    isWordOpt s.head? = !isWordOpt pv := by
  obtain ⟨hk, hS⟩ := hms pv s k h
  obtain ⟨hne, hpw, -, -, -⟩ := hgs _ _ _ hS
  have hk1 : 1 ≤ k := (match_len_pos hms hgs h).1
  rw [← head?_take_pos (s := s) hk1, hpw]
  simp

/-- The trailing word boundary of a match: the status after the match is
the opposite of the last matched character. -/
theorem match_trail_status {m : Matcher} {S : Bool → Text → Bool → Prop}
    (hms : ∀ pv s k, m pv s = some k →
      k ≤ s.length ∧ S (isWordOpt pv) (s.take k) (nextW (s.drop k)))
    (hgs : GoodSpan S) {pv : Option Nat} {s : Text} {k : Nat} (h : m pv s = some k) :
    nextW (s.drop k) = !isWordOpt ((s.take k).getLast?) := by
  obtain ⟨hk, hS⟩ := hms pv s k h
  exact (hgs _ _ _ hS).2.2.1

/-- A positive scan yields a span occurrence. -/
theorem hasMatch_occurs {m : Matcher} {S : Bool → Text → Bool → Prop}
    (hms : ∀ pv s k, m pv s = some k →
      k ≤ s.length ∧ S (isWordOpt pv) (s.take k) (nextW (s.drop k))) :
    ∀ (prev : Option Nat) (t : Text), hasMatchFrom m prev t = true →
      Occurs S (isWordOpt prev) t := by
  intro prev t
  induction t generalizing prev with
  | nil => intro h; simp [hasMatchFrom] at h
  | cons c rest ih =>
    intro h
    simp only [hasMatchFrom, Bool.or_eq_true] at h
    rcases h with h | h
    · rw [Option.isSome_iff_exists] at h
      obtain ⟨k, hk⟩ := h
      obtain ⟨hkle, hS⟩ := hms prev (c :: rest) k hk
      exact ⟨[], (c :: rest).take k, (c :: rest).drop k, by simp,
        by simpa [ctxW] using hS⟩
    · have ho := ih (some c) h
      have h2 : Occurs S (ctxW (isWordOpt prev) [c]) rest := by
        simpa [ctxW, isWordOpt] using ho
      simpa using occurs_lift h2

/-- `re.sub` is the identity on text with no match anywhere. -/
theorem substFrom_id_of_no_match {m : Matcher} {repl : Text} :
    ∀ (prev : Option Nat) (t : Text), hasMatchFrom m prev t = false →
      substFrom m repl prev t = t := by
  intro prev t
  induction t generalizing prev with
  | nil => intro _; rw [substFrom]
  | cons c rest ih =>
    intro h
    simp only [hasMatchFrom, Bool.or_eq_false_iff] at h
    have h1 := h.1
    cases hm : m prev (c :: rest) with
    | none =>
      rw [substFrom, hm]
      show c :: substFrom m repl (some c) rest = c :: rest
      rw [ih (some c) h.2]
    | some k =>
      rw [hm] at h1
      simp at h1

/-- A bracket-free prefix of the substituted text whose end sits on a word
boundary is a prefix of the original text, with the same following word
status: the first replacement starts with `[`, so such a prefix ends
before any replacement, in the region where input and output agree. -/
theorem substFrom_prefix_clean {m : Matcher} {S : Bool → Text → Bool → Prop} {repl : Text}
    (hms : ∀ pv s k, m pv s = some k →
      k ≤ s.length ∧ S (isWordOpt pv) (s.take k) (nextW (s.drop k)))
    (hgs : GoodSpan S) (hr91 : repl.head? = some 91) :
    ∀ (prev : Option Nat) (t w b : Text),
      substFrom m repl prev t = w ++ b → w ≠ [] →
      (∀ x ∈ w, (x == 91) = false) →
      isWordOpt b.head? = !isWordOpt w.getLast? →
      ∃ b2, t = w ++ b2 ∧ nextW b2 = nextW b := by
  obtain ⟨r0, hrepl⟩ : ∃ r0, repl = 91 :: r0 := by
    cases hrep : repl with
    | nil => rw [hrep] at hr91; simp at hr91
    | cons rh rt =>
      rw [hrep] at hr91
      simp only [List.head?_cons, Option.some.injEq] at hr91
      exact ⟨rt, by rw [hr91]⟩
  refine substFrom.induct m repl (fun prev t => ∀ w b,
      substFrom m repl prev t = w ++ b → w ≠ [] →
      (∀ x ∈ w, (x == 91) = false) →
      isWordOpt b.head? = !isWordOpt w.getLast? →
      ∃ b2, t = w ++ b2 ∧ nextW b2 = nextW b) ?_ ?_ ?_
  · intro pv w b heq hne h91 hbnd
    rw [substFrom] at heq
    rcases List.append_eq_nil.mp heq.symm with ⟨h1, -⟩
    exact absurd h1 hne
  · intro pv c rest len hfire ih w b heq hne h91 hbnd
    rw [substFrom, hfire] at heq
    have heq2 : repl ++ substFrom m repl ((List.take (len + 1) (c :: rest)).getLast?)
        (List.drop len rest) = w ++ b := heq
    cases w with
    | nil => exact absurd rfl hne
    | cons wh w1 =>
      rw [hrepl] at heq2
      simp only [List.cons_append] at heq2
      have hwh : wh = 91 := (List.cons.injEq _ _ _ _ ▸ heq2).1.symm
      have := h91 wh (by simp)
      rw [hwh] at this
      simp at this
  · intro pv c rest hnofire ih w b heq hne h91 hbnd
    have hcv : c :: substFrom m repl (some c) rest = w ++ b := by
      rw [substFrom] at heq
      cases hm : m pv (c :: rest) with
      | none => rw [hm] at heq; exact heq
      | some k =>
        cases k with
        | zero => rw [hm] at heq; exact heq
        | succ len => exact absurd hm (fun hh => hnofire len hh)
    cases w with
    | nil => exact absurd rfl hne
    | cons wh w1 =>
      simp only [List.cons_append] at hcv
      have hwc : c = wh := (List.cons.injEq _ _ _ _ ▸ hcv).1
      subst hwc
      have h2 : substFrom m repl (some c) rest = w1 ++ b :=
        (List.cons.injEq _ _ _ _ ▸ hcv).2
      by_cases hw1 : w1 = []
      · subst hw1
        have hb : b = substFrom m repl (some c) rest := by simpa using h2.symm
        refine ⟨rest, by simp, ?_⟩
        have hbnd2 : nextW (substFrom m repl (some c) rest) = !isWordCh c := by
          rw [← hb]
          simpa [nextW, isWordOpt] using hbnd
        rw [hb]
        cases rest with
        | nil => rw [substFrom]
        | cons c2 r2 =>
          cases hm2 : m (some c) (c2 :: r2) with
          | none =>
            rw [substFrom, hm2]
            show nextW (c2 :: r2) = nextW (c2 :: substFrom m repl (some c2) r2)
            simp [nextW]
          | some k2 =>
            cases k2 with
            | zero =>
              rw [substFrom, hm2]
              show nextW (c2 :: r2) = nextW (c2 :: substFrom m repl (some c2) r2)
              simp [nextW]
            | succ len2 =>
              have hv2 : substFrom m repl (some c) (c2 :: r2)
                  = repl ++ substFrom m repl
                      ((List.take (len2 + 1) (c2 :: r2)).getLast?) (List.drop len2 r2) := by
                rw [substFrom, hm2]
              have hfalse : nextW (substFrom m repl (some c) (c2 :: r2)) = false := by
                rw [hv2, hrepl]
                simp [nextW, isWordOpt, isWordCh, isDigitCh, isUpperCh, isLowerCh]
              have hc : isWordCh c = true := by
                rw [hfalse] at hbnd2
                cases hcc : isWordCh c
                · rw [hcc] at hbnd2; simp at hbnd2
                · rfl
              have hc2 : isWordCh c2 = false := by
                have := match_head_status hms hgs hm2
                simp only [List.head?_cons, isWordOpt] at this
                rw [this, hc]
                rfl
              rw [hfalse]
              simp [nextW, isWordOpt, hc2]
      · obtain ⟨b2, hrest, hnb⟩ := ih w1 b h2 hw1
          (fun x hx => h91 x (List.mem_cons_of_mem _ hx))
          (by rwa [getLast?_cons_ne c hw1] at hbnd)
        exact ⟨b2, by rw [hrest, List.cons_append], hnb⟩

/-- The context after a nonempty prefix is the status of its last
character. -/
theorem ctxW_ne (pw : Bool) {x : Text} (h : x ≠ []) :
    ctxW pw x = isWordOpt x.getLast? := by
  simp only [ctxW]
  cases hg : x.getLast? with
  | none => exact absurd (List.getLast?_eq_none.mp hg) h
  | some c => simp [isWordOpt]

/-- Substitution creates no new good-span occurrence: a span in the output
either sits inside a replacement (impossible: replacements have no digit or
`@` and spans need one), crosses a bracket (impossible: spans are
bracket-free), or lies over untouched text and transfers back to the
input, using the word-boundary facts at the seams. -/
theorem substFrom_occurs_back {m : Matcher} {S S' : Bool → Text → Bool → Prop} {repl : Text}
    (hms : ∀ pv s k, m pv s = some k →
      k ≤ s.length ∧ S (isWordOpt pv) (s.take k) (nextW (s.drop k)))
    (hgs : GoodSpan S) (hgs' : GoodSpan S')
    (hr91 : repl.head? = some 91) (hr93 : repl.getLast? = some 93)
    (hrneed : ∀ x ∈ repl, needCh x = false) :
    ∀ (prev : Option Nat) (t : Text),
      Occurs S' (isWordOpt prev) (substFrom m repl prev t) →
      Occurs S' (isWordOpt prev) t := by
  have hrne : repl ≠ [] := by
    intro h0
    rw [h0] at hr91
    simp at hr91
  have hctx : ∀ pw, ctxW pw repl = false := by
    intro pw
    rw [ctxW_ne _ hrne, hr93]
    decide
  refine substFrom.induct m repl (fun prev t =>
    Occurs S' (isWordOpt prev) (substFrom m repl prev t) →
    Occurs S' (isWordOpt prev) t) ?_ ?_ ?_
  · intro pv h
    rw [substFrom] at h
    obtain ⟨a, w, b, heq, hS⟩ := h
    rcases List.append_eq_nil.mp (List.append_eq_nil.mp heq.symm).1 with ⟨-, h1⟩
    exact absurd h1 (hgs' _ _ _ hS).1
  · -- the matcher fires at the head
    intro pv c rest len hfire ih h
    have hv : substFrom m repl pv (c :: rest)
        = repl ++ substFrom m repl ((List.take (len + 1) (c :: rest)).getLast?)
            (List.drop len rest) := by
      rw [substFrom, hfire]
    rw [hv] at h
    obtain ⟨a, w, b, heq, hS⟩ := h
    have hkS := hms pv (c :: rest) (len + 1) hfire
    have hmne : (c :: rest).take (len + 1) ≠ [] := (hgs _ _ _ hkS.2).1
    have ht : c :: rest = (c :: rest).take (len + 1) ++ rest.drop len := by
      conv_lhs => rw [← List.take_append_drop (len + 1) (c :: rest)]
      rw [List.drop_succ_cons]
    have htrail : nextW (rest.drop len)
        = !isWordOpt (((c :: rest).take (len + 1)).getLast?) := by
      have h2 := match_trail_status hms hgs hfire
      rwa [List.drop_succ_cons] at h2
    have hlift : Occurs S' (isWordOpt (((c :: rest).take (len + 1)).getLast?))
        (rest.drop len) → Occurs S' (isWordOpt pv) (c :: rest) := by
      intro ho
      rw [ht]
      apply occurs_lift
      rwa [ctxW_ne _ hmne]
    have hSTART : substFrom m repl ((List.take (len + 1) (c :: rest)).getLast?)
        (List.drop len rest) = w ++ b → S' false w (nextW b) →
        Occurs S' (isWordOpt pv) (c :: rest) := by
      intro hv'eq hS0
      obtain ⟨hwne, hwpw, hwnxt, hwnb, -⟩ := hgs' _ _ _ hS0
      obtain ⟨b2, hrw, hnb⟩ := substFrom_prefix_clean hms hgs hr91 _ _ w b hv'eq hwne
        (fun x hx => by
          have h3 := hwnb x hx
          rw [Bool.or_eq_false_iff] at h3
          exact h3.1)
        hwnxt
      cases hploc : isWordOpt (((c :: rest).take (len + 1)).getLast?) with
      | false =>
        apply hlift
        rw [hploc]
        refine ⟨[], w, b2, by rw [hrw]; simp, ?_⟩
        show S' false w (nextW b2)
        rw [hnb]
        exact hS0
      | true =>
        exfalso
        have hnr : nextW (rest.drop len) = false := by rw [htrail, hploc]; rfl
        cases w with
        | nil => exact absurd rfl hwne
        | cons wh w1 =>
          have hhead : isWordCh wh = true := by
            have h4 : false = !isWordOpt (wh :: w1).head? := hwpw
            simp only [List.head?_cons, isWordOpt] at h4
            cases hww : isWordCh wh
            · rw [hww] at h4; simp at h4
            · rfl
          rw [hrw] at hnr
          simp only [nextW, List.cons_append, List.head?_cons, isWordOpt] at hnr
          rw [hhead] at hnr
          cases hnr
    rw [List.append_assoc] at heq
    rcases List.append_eq_append_iff.mp heq.symm with ⟨a2, hra, hwb⟩ | ⟨a2, haa, hv'⟩
    · rcases List.append_eq_append_iff.mp hwb with ⟨w2, ha2w, hb⟩ | ⟨b2, hwa, hv'b⟩
      · -- the span sits inside the replacement: it has no digit or at-sign
        exfalso
        obtain ⟨x, hxw, hxneed⟩ := (hgs' _ _ _ hS).2.2.2.2
        have hxrepl : x ∈ repl := by
          rw [hra, ha2w]
          exact List.mem_append_right a (List.mem_append_left w2 hxw)
        rw [hrneed x hxrepl] at hxneed
        cases hxneed
      · by_cases ha2 : a2 = []
        · subst ha2
          have ha : a = repl := by simpa using hra.symm
          subst ha
          refine hSTART ?_ ?_
          · have hwb2 : w = b2 := by simpa using hwa
            rw [hwb2]
            exact hv'b
          · have h5 := hS
            rw [hctx] at h5
            exact h5
        · -- the span crosses the right bracket of the replacement
          exfalso
          have h93 : (93 : Nat) ∈ w := by
            rw [hwa]
            refine List.mem_append_left b2 (mem_of_getLast?_eq ?_)
            rw [← getLast?_append_ne a ha2, ← hra]
            exact hr93
          have h6 := (hgs' _ _ _ hS).2.2.2.1 93 h93
          simp at h6
    · by_cases ha2 : a2 = []
      · subst ha2
        have ha : a = repl := by simpa using haa
        subst ha
        refine hSTART (by simpa using hv') ?_
        have h5 := hS
        rw [hctx] at h5
        exact h5
      · -- the span lies further inside the processed tail
        have h7 : Occurs S' (isWordOpt (((c :: rest).take (len + 1)).getLast?))
            (substFrom m repl ((List.take (len + 1) (c :: rest)).getLast?)
              (List.drop len rest)) := by
          refine ⟨a2, w, b, by rw [hv']; simp, ?_⟩
          have h8 : ctxW (isWordOpt pv) a
              = ctxW (isWordOpt (((c :: rest).take (len + 1)).getLast?)) a2 := by
            rw [haa, ctxW_append]
            exact ctxW_of_ne_nil _ _ ha2
          rwa [h8] at hS
        exact hlift (ih h7)
  · -- no match at the head
    intro pv c rest hnofire ih h
    have hcv : substFrom m repl pv (c :: rest)
        = c :: substFrom m repl (some c) rest := by
      rw [substFrom]
      cases hm : m pv (c :: rest) with
      | none => rfl
      | some k =>
        cases k with
        | zero => rfl
        | succ len => exact absurd hm (fun hh => hnofire len hh)
    rw [hcv] at h
    obtain ⟨a, w, b, heq, hS⟩ := h
    cases a with
    | cons ah a1 =>
      simp only [List.cons_append, List.append_assoc] at heq
      have hac : c = ah := (List.cons.injEq _ _ _ _ ▸ heq).1
      subst hac
      have hv2 : substFrom m repl (some c) rest = a1 ++ (w ++ b) :=
        (List.cons.injEq _ _ _ _ ▸ heq).2
      have h7 : Occurs S' (isWordOpt (some c)) (substFrom m repl (some c) rest) := by
        refine ⟨a1, w, b, by rw [hv2]; simp, ?_⟩
        have h8 : ctxW (isWordOpt pv) (c :: a1) = ctxW (isWordOpt (some c)) a1 := by
          rw [show (c :: a1) = [c] ++ a1 from rfl, ctxW_append]
          rfl
        rwa [h8] at hS
      have h9 := ih h7
      have h10 : Occurs S' (ctxW (isWordOpt pv) [c]) rest := h9
      simpa using occurs_lift h10
    | nil =>
      simp only [List.nil_append] at heq
      obtain ⟨hwne, hwpw, hwnxt, hwnb, -⟩ := hgs' _ _ _ hS
      obtain ⟨b2, hrw, hnb⟩ := substFrom_prefix_clean hms hgs hr91 pv (c :: rest) w b
        (hcv.trans heq) hwne
        (fun x hx => by
          have h3 := hwnb x hx
          rw [Bool.or_eq_false_iff] at h3
          exact h3.1)
        (by
          have h4 : ctxW (isWordOpt pv) [] = isWordOpt pv := rfl
          exact hwnxt)
      refine ⟨[], w, b2, by rw [hrw]; simp, ?_⟩
      show S' (ctxW (isWordOpt pv) []) w (nextW b2)
      rw [hnb]
      exact hS

/-- After substituting a pattern, no span of that same pattern remains
anywhere in the output: a surviving span would transfer to a clean region
of the input where the scan, which examined every position, found no
match — contradicting the span-to-matcher direction. -/
theorem substFrom_no_occurs {m : Matcher} {S : Bool → Text → Bool → Prop} {repl : Text}
    (hms : ∀ pv s k, m pv s = some k →
      k ≤ s.length ∧ S (isWordOpt pv) (s.take k) (nextW (s.drop k)))
    (hsm : ∀ (pv : Option Nat) (w b : Text), S (isWordOpt pv) w (nextW b) →
      (m pv (w ++ b)).isSome = true)
    (hgs : GoodSpan S)
    (hr91 : repl.head? = some 91) (hr93 : repl.getLast? = some 93)
    (hrneed : ∀ x ∈ repl, needCh x = false) :
    ∀ (prev : Option Nat) (t : Text),
      ¬ Occurs S (isWordOpt prev) (substFrom m repl prev t) := by
  have hrne : repl ≠ [] := by
    intro h0
    rw [h0] at hr91
    simp at hr91
  have hctx : ∀ pw, ctxW pw repl = false := by
    intro pw
    rw [ctxW_ne _ hrne, hr93]
    decide
  refine substFrom.induct m repl (fun prev t =>
    ¬ Occurs S (isWordOpt prev) (substFrom m repl prev t)) ?_ ?_ ?_
  · intro pv h
    rw [substFrom] at h
    obtain ⟨a, w, b, heq, hS⟩ := h
    rcases List.append_eq_nil.mp (List.append_eq_nil.mp heq.symm).1 with ⟨-, h1⟩
    exact absurd h1 (hgs _ _ _ hS).1
  · -- the matcher fires at the head
    intro pv c rest len hfire ih h
    have hv : substFrom m repl pv (c :: rest)
        = repl ++ substFrom m repl ((List.take (len + 1) (c :: rest)).getLast?)
            (List.drop len rest) := by
      rw [substFrom, hfire]
    rw [hv] at h
    obtain ⟨a, w, b, heq, hS⟩ := h
    have hkS := hms pv (c :: rest) (len + 1) hfire
    have htrail : nextW (rest.drop len)
        = !isWordOpt (((c :: rest).take (len + 1)).getLast?) := by
      have h2 := match_trail_status hms hgs hfire
      rwa [List.drop_succ_cons] at h2
    have hSTART : substFrom m repl ((List.take (len + 1) (c :: rest)).getLast?)
        (List.drop len rest) = w ++ b → S false w (nextW b) → False := by
      intro hv'eq hS0
      obtain ⟨hwne, hwpw, hwnxt, hwnb, -⟩ := hgs _ _ _ hS0
      cases hploc : isWordOpt (((c :: rest).take (len + 1)).getLast?) with
      | false =>
        refine ih ⟨[], w, b, by rw [hv'eq]; simp, ?_⟩
        show S (isWordOpt (((c :: rest).take (len + 1)).getLast?)) w (nextW b)
        rw [hploc]
        exact hS0
      | true =>
        obtain ⟨b2, hrw, hnb⟩ := substFrom_prefix_clean hms hgs hr91 _ _ w b hv'eq hwne
          (fun x hx => by
            have h3 := hwnb x hx
            rw [Bool.or_eq_false_iff] at h3
            exact h3.1)
          hwnxt
        have hnr : nextW (rest.drop len) = false := by rw [htrail, hploc]; rfl
        cases w with
        | nil => exact absurd rfl hwne
        | cons wh w1 =>
          have hhead : isWordCh wh = true := by
            have h4 : false = !isWordOpt (wh :: w1).head? := hwpw
            simp only [List.head?_cons, isWordOpt] at h4
            cases hww : isWordCh wh
            · rw [hww] at h4; simp at h4
            · rfl
          rw [hrw] at hnr
          simp only [nextW, List.cons_append, List.head?_cons, isWordOpt] at hnr
          rw [hhead] at hnr
          cases hnr
    rw [List.append_assoc] at heq
    rcases List.append_eq_append_iff.mp heq.symm with ⟨a2, hra, hwb⟩ | ⟨a2, haa, hv'⟩
    · rcases List.append_eq_append_iff.mp hwb with ⟨w2, ha2w, hb⟩ | ⟨b2, hwa, hv'b⟩
      · obtain ⟨x, hxw, hxneed⟩ := (hgs _ _ _ hS).2.2.2.2
        have hxrepl : x ∈ repl := by
          rw [hra, ha2w]
          exact List.mem_append_right a (List.mem_append_left w2 hxw)
        rw [hrneed x hxrepl] at hxneed
        cases hxneed
      · by_cases ha2 : a2 = []
        · subst ha2
          have ha : a = repl := by simpa using hra.symm
          subst ha
          refine hSTART ?_ ?_
          · have hwb2 : w = b2 := by simpa using hwa
            rw [hwb2]
            exact hv'b
          · have h5 := hS
            rw [hctx] at h5
            exact h5
        · have h93 : (93 : Nat) ∈ w := by
            rw [hwa]
            refine List.mem_append_left b2 (mem_of_getLast?_eq ?_)
            rw [← getLast?_append_ne a ha2, ← hra]
            exact hr93
          have h6 := (hgs _ _ _ hS).2.2.2.1 93 h93
          simp at h6
    · by_cases ha2 : a2 = []
      · subst ha2
        have ha : a = repl := by simpa using haa
        subst ha
        refine hSTART (by simpa using hv') ?_
        have h5 := hS
        rw [hctx] at h5
        exact h5
      · refine ih ⟨a2, w, b, by rw [hv']; simp, ?_⟩
        have h8 : ctxW (isWordOpt pv) a
            = ctxW (isWordOpt (((c :: rest).take (len + 1)).getLast?)) a2 := by
          rw [haa, ctxW_append]
          exact ctxW_of_ne_nil _ _ ha2
        rwa [h8] at hS
  · -- no match at the head
    intro pv c rest hnofire ih h
    have hcv : substFrom m repl pv (c :: rest)
        = c :: substFrom m repl (some c) rest := by
      rw [substFrom]
      cases hm : m pv (c :: rest) with
      | none => rfl
      | some k =>
        cases k with
        | zero => rfl
        | succ len => exact absurd hm (fun hh => hnofire len hh)
    rw [hcv] at h
    obtain ⟨a, w, b, heq, hS⟩ := h
    cases a with
    | cons ah a1 =>
      simp only [List.cons_append, List.append_assoc] at heq
      have hac : c = ah := (List.cons.injEq _ _ _ _ ▸ heq).1
      subst hac
      have hv2 : substFrom m repl (some c) rest = a1 ++ (w ++ b) :=
        (List.cons.injEq _ _ _ _ ▸ heq).2
      refine ih ⟨a1, w, b, by rw [hv2]; simp, ?_⟩
      have h8 : ctxW (isWordOpt pv) (c :: a1) = ctxW (isWordOpt (some c)) a1 := by
        rw [show (c :: a1) = [c] ++ a1 from rfl, ctxW_append]
        rfl
      rwa [h8] at hS
    | nil =>
      simp only [List.nil_append] at heq
      obtain ⟨hwne, hwpw, hwnxt, hwnb, -⟩ := hgs _ _ _ hS
      obtain ⟨b2, hrw, hnb⟩ := substFrom_prefix_clean hms hgs hr91 pv (c :: rest) w b
        (hcv.trans heq) hwne
        (fun x hx => by
          have h3 := hwnb x hx
          rw [Bool.or_eq_false_iff] at h3
          exact h3.1)
        hwnxt
      have hS2 : S (isWordOpt pv) w (nextW b2) := by
        rw [hnb]
        exact hS
      have h9 := hsm pv w b2 hS2
      rw [← hrw] at h9
      rw [Option.isSome_iff_exists] at h9
      obtain ⟨k, hk⟩ := h9
      have hk1 := (match_len_pos hms hgs hk).1
      obtain ⟨len, rfl⟩ : ∃ len, k = len + 1 := ⟨k - 1, by omega⟩
      exact hnofire len hk

/-- C6: redaction is idempotent — for every input text,
`anonymize_text(anonymize_text(x)) = anonymize_text(x)`.  The six `re.sub`
passes remove every occurrence of their own pattern and create none of the
others, so the second application scans a text with no matches and returns
it unchanged. -/
theorem c6_redaction_idempotent (t : Text) :
    anonymizeText (anonymizeText t) = anonymizeText t := by
  have hms1 : ∀ pv s k, digitRunAtHead 12 12 pv s = some k →
      k ≤ s.length ∧ RunSpan 12 12 (isWordOpt pv) (s.take k) (nextW (s.drop k)) :=
    fun pv s k h => digitRunAtHead_span h
  have hms2 : ∀ pv s k, panAtHead pv s = some k →
      k ≤ s.length ∧ PanSpan (isWordOpt pv) (s.take k) (nextW (s.drop k)) :=
    fun pv s k h => panAtHead_span h
  have hms3 : ∀ pv s k, digitRunAtHead 10 16 pv s = some k →
      k ≤ s.length ∧ RunSpan 10 16 (isWordOpt pv) (s.take k) (nextW (s.drop k)) :=
    fun pv s k h => digitRunAtHead_span h
  have hms4 : ∀ pv s k, emailAtHead pv s = some k →
      k ≤ s.length ∧ EmailSpan (isWordOpt pv) (s.take k) (nextW (s.drop k)) :=
    fun pv s k h => emailAtHead_span h
  have hms5 : ∀ pv s k, digitRunAtHead 10 10 pv s = some k →
      k ≤ s.length ∧ RunSpan 10 10 (isWordOpt pv) (s.take k) (nextW (s.drop k)) :=
    fun pv s k h => digitRunAtHead_span h
  have hms6 : ∀ pv s k, phoneAtHead pv s = some k →
      k ≤ s.length ∧ PhoneSpan (isWordOpt pv) (s.take k) (nextW (s.drop k)) :=
    fun pv s k h => phoneAtHead_span h
  have hno1 : ∀ pv u, ¬ Occurs (RunSpan 12 12) (isWordOpt pv)
      (substFrom (digitRunAtHead 12 12) replAadhar pv u) :=
    substFrom_no_occurs hms1
      (fun pv w b h => by rw [span_digitRunAtHead h]; rfl)
      (goodSpan_run 12 12) rfl (by decide) (by decide)
  have hno2 : ∀ pv u, ¬ Occurs PanSpan (isWordOpt pv)
      (substFrom panAtHead replPan pv u) :=
    substFrom_no_occurs hms2
      (fun pv w b h => by rw [span_panAtHead h]; rfl)
      goodSpan_pan rfl (by decide) (by decide)
  have hno3 : ∀ pv u, ¬ Occurs (RunSpan 10 16) (isWordOpt pv)
      (substFrom (digitRunAtHead 10 16) replAccount pv u) :=
    substFrom_no_occurs hms3
      (fun pv w b h => by rw [span_digitRunAtHead h]; rfl)
      (goodSpan_run 10 16) rfl (by decide) (by decide)
  have hno4 : ∀ pv u, ¬ Occurs EmailSpan (isWordOpt pv)
      (substFrom emailAtHead replEmail pv u) :=
    substFrom_no_occurs hms4
      (fun pv w b h => span_emailAtHead h)
      goodSpan_email rfl (by decide) (by decide)
  have hno5 : ∀ pv u, ¬ Occurs (RunSpan 10 10) (isWordOpt pv)
      (substFrom (digitRunAtHead 10 10) replPhone pv u) :=
    substFrom_no_occurs hms5
      (fun pv w b h => by rw [span_digitRunAtHead h]; rfl)
      (goodSpan_run 10 10) rfl (by decide) (by decide)
  have hno6 : ∀ pv u, ¬ Occurs PhoneSpan (isWordOpt pv)
      (substFrom phoneAtHead replPhone pv u) :=
    substFrom_no_occurs hms6
      (fun pv w b h => by rw [span_phoneAtHead h]; rfl)
      goodSpan_phone rfl (by decide) (by decide)
  have hb1 : ∀ (S' : Bool → Text → Bool → Prop), GoodSpan S' → ∀ pv u,
      Occurs S' (isWordOpt pv) (substFrom (digitRunAtHead 12 12) replAadhar pv u) →
      Occurs S' (isWordOpt pv) u :=
    fun S' hgs' => substFrom_occurs_back hms1 (goodSpan_run 12 12) hgs'
      rfl (by decide) (by decide)
  have hb2 : ∀ (S' : Bool → Text → Bool → Prop), GoodSpan S' → ∀ pv u,
      Occurs S' (isWordOpt pv) (substFrom panAtHead replPan pv u) →
      Occurs S' (isWordOpt pv) u :=
    fun S' hgs' => substFrom_occurs_back hms2 goodSpan_pan hgs' rfl (by decide) (by decide)
  have hb3 : ∀ (S' : Bool → Text → Bool → Prop), GoodSpan S' → ∀ pv u,
      Occurs S' (isWordOpt pv) (substFrom (digitRunAtHead 10 16) replAccount pv u) →
      Occurs S' (isWordOpt pv) u :=
    fun S' hgs' => substFrom_occurs_back hms3 (goodSpan_run 10 16) hgs'
      rfl (by decide) (by decide)
  have hb4 : ∀ (S' : Bool → Text → Bool → Prop), GoodSpan S' → ∀ pv u,
      Occurs S' (isWordOpt pv) (substFrom emailAtHead replEmail pv u) →
      Occurs S' (isWordOpt pv) u :=
    fun S' hgs' => substFrom_occurs_back hms4 goodSpan_email hgs' rfl (by decide) (by decide)
  have hb5 : ∀ (S' : Bool → Text → Bool → Prop), GoodSpan S' → ∀ pv u,
      Occurs S' (isWordOpt pv) (substFrom (digitRunAtHead 10 10) replPhone pv u) →
      Occurs S' (isWordOpt pv) u :=
    fun S' hgs' => substFrom_occurs_back hms5 (goodSpan_run 10 10) hgs'
      rfl (by decide) (by decide)
  have hb6 : ∀ (S' : Bool → Text → Bool → Prop), GoodSpan S' → ∀ pv u,
      Occurs S' (isWordOpt pv) (substFrom phoneAtHead replPhone pv u) →
      Occurs S' (isWordOpt pv) u :=
    fun S' hgs' => substFrom_occurs_back hms6 goodSpan_phone hgs' rfl (by decide) (by decide)
  simp only [anonymizeText]
  set u1 := substFrom (digitRunAtHead 12 12) replAadhar none t with hu1
  set u2 := substFrom panAtHead replPan none u1 with hu2
  set u3 := substFrom (digitRunAtHead 10 16) replAccount none u2 with hu3
  set u4 := substFrom emailAtHead replEmail none u3 with hu4
  set u5 := substFrom (digitRunAtHead 10 10) replPhone none u4 with hu5
  set u6 := substFrom phoneAtHead replPhone none u5 with hu6
  have e1 : substFrom (digitRunAtHead 12 12) replAadhar none u6 = u6 := by
    apply substFrom_id_of_no_match
    cases hhm : hasMatchFrom (digitRunAtHead 12 12) none u6 with
    | false => rfl
    | true =>
      exfalso
      have o6 := hasMatch_occurs hms1 none u6 hhm
      have o5 := hb6 _ (goodSpan_run 12 12) none u5 (hu6 ▸ o6)
      have o4 := hb5 _ (goodSpan_run 12 12) none u4 (hu5 ▸ o5)
      have o3 := hb4 _ (goodSpan_run 12 12) none u3 (hu4 ▸ o4)
      have o2 := hb3 _ (goodSpan_run 12 12) none u2 (hu3 ▸ o3)
      have o1 := hb2 _ (goodSpan_run 12 12) none u1 (hu2 ▸ o2)
      exact hno1 none t (hu1 ▸ o1)
  have e2 : substFrom panAtHead replPan none u6 = u6 := by
    apply substFrom_id_of_no_match
    cases hhm : hasMatchFrom panAtHead none u6 with
    | false => rfl
    | true =>
      exfalso
      have o6 := hasMatch_occurs hms2 none u6 hhm
      have o5 := hb6 _ goodSpan_pan none u5 (hu6 ▸ o6)
      have o4 := hb5 _ goodSpan_pan none u4 (hu5 ▸ o5)
      have o3 := hb4 _ goodSpan_pan none u3 (hu4 ▸ o4)
      have o2 := hb3 _ goodSpan_pan none u2 (hu3 ▸ o3)
      exact hno2 none u1 (hu2 ▸ o2)
  have e3 : substFrom (digitRunAtHead 10 16) replAccount none u6 = u6 := by
    apply substFrom_id_of_no_match
    cases hhm : hasMatchFrom (digitRunAtHead 10 16) none u6 with
    | false => rfl
    | true =>
      exfalso
      have o6 := hasMatch_occurs hms3 none u6 hhm
      have o5 := hb6 _ (goodSpan_run 10 16) none u5 (hu6 ▸ o6)
      have o4 := hb5 _ (goodSpan_run 10 16) none u4 (hu5 ▸ o5)
      have o3 := hb4 _ (goodSpan_run 10 16) none u3 (hu4 ▸ o4)
      exact hno3 none u2 (hu3 ▸ o3)
  have e4 : substFrom emailAtHead replEmail none u6 = u6 := by
    apply substFrom_id_of_no_match
    cases hhm : hasMatchFrom emailAtHead none u6 with
    | false => rfl
    | true =>
      exfalso
      have o6 := hasMatch_occurs hms4 none u6 hhm
      have o5 := hb6 _ goodSpan_email none u5 (hu6 ▸ o6)
      have o4 := hb5 _ goodSpan_email none u4 (hu5 ▸ o5)
      exact hno4 none u3 (hu4 ▸ o4)
  have e5 : substFrom (digitRunAtHead 10 10) replPhone none u6 = u6 := by
    apply substFrom_id_of_no_match
    cases hhm : hasMatchFrom (digitRunAtHead 10 10) none u6 with
    | false => rfl
    | true =>
      exfalso
      have o6 := hasMatch_occurs hms5 none u6 hhm
      have o5 := hb6 _ (goodSpan_run 10 10) none u5 (hu6 ▸ o6)
      exact hno5 none u4 (hu5 ▸ o5)
  have e6 : substFrom phoneAtHead replPhone none u6 = u6 := by
    apply substFrom_id_of_no_match
    cases hhm : hasMatchFrom phoneAtHead none u6 with
    | false => rfl
    | true =>
      exfalso
      have o6 := hasMatch_occurs hms6 none u6 hhm
      exact hno6 none u5 (hu6 ▸ o6)
  rw [e1, e2, e3, e4, e5, e6]
